import Mathlib

/-!
Verification of the movie-stream catalog acquisition and ranking engine.

The definitions below are a shallow embedding of the JavaScript source in
src/shared/cache.js and the proxy key-derivation code.  JavaScript numbers
that matter to the logic are modelled as rationals (with an explicit NaN
constructor where the code checks Number.isFinite), timestamps as integers
(milliseconds), and the real-valued composite ranking score as a real
number.  Ambient mutable state (the in-memory cache map, the discover
cursor history) is passed explicitly; asynchronous network and Firestore
accesses are oracles passed as function arguments.
-/

/-- A JavaScript number as far as the engine inspects one: either a finite
numeric value or a non-finite value (NaN or an infinity), which every
Number.isFinite guard in the source rejects. -/
inductive JsNum where
  | nan : JsNum
  | num (q : ℚ) : JsNum
deriving DecidableEq, Repr

/-- Models Number.isFinite. -/
def JsNum.isFinite : JsNum → Bool
  | .nan => false
  | .num _ => true

/-- A catalog item as inspected by the ranking, merge and discovery code of
src/shared/cache.js.  Fields are Option-typed where the source checks for
null/undefined; release_date is none when the field is absent or falsy,
some none when present but not parseable as a date, and some (some t) when
it parses to the millisecond timestamp t.  poster_path, overview and
criticScores are reduced to their truthiness, and the three list-valued
fields to their lengths, because that is all the code reads of them. -/
structure Movie where
  id : Option String
  vote_average : Option JsNum
  vote_count : Option JsNum
  score : Option JsNum
  voteCount : Option JsNum
  release_date : Option (Option ℤ)
  poster_path : Bool
  overview : Bool
  criticScores : Bool
  directors : ℕ
  topCast : ℕ
  genre_ids : ℕ
deriving DecidableEq, Repr

/-- A movie with every field empty, used to build concrete test inputs. -/
def emptyMovie : Movie :=
  { id := none, vote_average := none, vote_count := none, score := none
    voteCount := none, release_date := none, poster_path := false
    overview := false, criticScores := false, directors := 0, topCast := 0
    genre_ids := 0 }

/-- Embeds scoreMovieForMerge (src/shared/cache.js): the completeness score
used to pick between duplicate records; poster contributes 3, overview 2,
and the remaining informative fields 1 each. -/
def scoreMovieForMerge (m : Movie) : ℕ :=
  (if m.poster_path then 3 else 0) +
  (if m.overview then 2 else 0) +
  (if m.vote_average.isSome then 1 else 0) +
  (if m.vote_count.isSome then 1 else 0) +
  (if m.release_date.isSome then 1 else 0) +
  (if m.criticScores then 1 else 0) +
  (if m.directors ≠ 0 then 1 else 0) +
  (if m.topCast ≠ 0 then 1 else 0) +
  (if m.genre_ids ≠ 0 then 1 else 0)

/-- Modelled from the spec: the completeness score as the specification
words it, "+1 each for: poster, overview, rating, vote count, release
date, critic scores, non-empty director list, non-empty cast list,
non-empty genre list".  Stated only to compare against the source's
scoreMovieForMerge. -/
def specCompletenessScore (m : Movie) : ℕ :=
  (if m.poster_path then 1 else 0) +
  (if m.overview then 1 else 0) +
  (if m.vote_average.isSome then 1 else 0) +
  (if m.vote_count.isSome then 1 else 0) +
  (if m.release_date.isSome then 1 else 0) +
  (if m.criticScores then 1 else 0) +
  (if m.directors ≠ 0 then 1 else 0) +
  (if m.topCast ≠ 0 then 1 else 0) +
  (if m.genre_ids ≠ 0 then 1 else 0)

/-- State threaded through dedupeMoviesById: the seen map from id key to
the index (in the result array) and completeness score of the kept
instance, and the result array built so far. -/
structure MergeState where
  seen : List (String × ℕ × ℕ)
  result : List Movie
deriving DecidableEq, Repr

/-- First entry of the seen map with the given key (JavaScript Map get). -/
def findSeen (k : String) : List (String × ℕ × ℕ) → Option (ℕ × ℕ)
  | [] => none
  | e :: rest => if e.1 = k then some e.2 else findSeen k rest

/-- Replaces the stored score of the seen entry with key k (the source
mutates existing.score in place; the index is kept). -/
def updateSeenScore (k : String) (sc : ℕ) (l : List (String × ℕ × ℕ)) :
    List (String × ℕ × ℕ) :=
  l.map fun e => if e.1 = k then (e.1, e.2.1, sc) else e

/-- One iteration of the forEach body of dedupeMoviesById. -/
def dedupeStep (s : MergeState) (m : Movie) : MergeState :=
  match m.id with
  | none => { s with result := s.result ++ [m] }
  | some k =>
    let score := scoreMovieForMerge m
    match findSeen k s.seen with
    | none =>
        { seen := s.seen ++ [(k, s.result.length, score)]
          result := s.result ++ [m] }
    | some (idx, sc) =>
        if sc < score then
          { seen := updateSeenScore k score s.seen
            result := s.result.set idx m }
        else s

/-- Embeds dedupeMoviesById (src/shared/cache.js): entries without an id
pass straight through; for each id the first instance is kept and later
instances replace it in place only when their completeness score is
strictly higher. -/
def dedupeMoviesById (l : List Movie) : List Movie :=
  (l.foldl dedupeStep ⟨[], []⟩).result

/-- Quality constants of src/shared/cache.js. -/
def MIN_VOTE_AVERAGE : ℚ := 7

/-- Minimum vote count of the strictest quality tier. -/
def MIN_VOTE_COUNT : ℚ := 50

/-- Minimum number of candidates a quality tier must yield. -/
def MIN_PRIORITY_RESULTS : ℕ := 12

/-- Embeds meetsQualityThreshold (src/shared/cache.js): both the rating
(vote_average, falling back to score, then 0) and the vote count
(vote_count, falling back to voteCount, then 0) must be finite numbers at
or above the tier's bounds. -/
def meetsQualityThreshold (m : Movie) (minAverage minVotes : ℚ) : Bool :=
  let average := (m.vote_average.orElse fun _ => m.score).getD (.num 0)
  let votes := (m.vote_count.orElse fun _ => m.voteCount).getD (.num 0)
  match average, votes with
  | .num a, .num v => decide (minAverage ≤ a) && decide (minVotes ≤ v)
  | _, _ => false

/-- The successively looser tiers built inside selectPriorityCandidates. -/
def priorityThresholds : List (ℚ × ℚ) :=
  [(MIN_VOTE_AVERAGE, MIN_VOTE_COUNT),
   (max (13/2) (MIN_VOTE_AVERAGE - 1/2),
    max 25 ((Rat.floor (MIN_VOTE_COUNT / 2) : ℤ) : ℚ)),
   (6, 10)]

/-- The final fallback filter of selectPriorityCandidates: items whose
vote_average and vote_count fields are both present finite numbers (the
source coerces a missing field to NaN here, with no alias fallback). -/
def hasNumericRatingAndVotes (m : Movie) : Bool :=
  (m.vote_average.getD .nan).isFinite && (m.vote_count.getD .nan).isFinite

/-- The threshold loop of selectPriorityCandidates: returns the first tier
reaching MIN_PRIORITY_RESULTS matches; otherwise remembers the first
non-empty tier as bestFallback, returning it after the loop when no tier
reached the minimum, and only failing over to the numeric filter when
every tier is empty. -/
def selectFromThresholds (movies : List Movie) :
    List (ℚ × ℚ) → List Movie → List Movie
  | [], best =>
      if best ≠ [] then best else movies.filter hasNumericRatingAndVotes
  | t :: rest, best =>
      let filtered := movies.filter fun m => meetsQualityThreshold m t.1 t.2
      if MIN_PRIORITY_RESULTS ≤ filtered.length then filtered
      else
        selectFromThresholds movies rest
          (if best = [] ∧ filtered ≠ [] then filtered else best)

/-- Embeds selectPriorityCandidates (src/shared/cache.js). -/
def selectPriorityCandidates (movies : List Movie) : List Movie :=
  if movies = [] then []
  else selectFromThresholds movies priorityThresholds []

/-- Embeds getVoteAverageValue (src/shared/cache.js): Number of
vote_average falling back to score, and null unless the result is
finite. -/
def getVoteAverageValue (m : Movie) : Option ℚ :=
  match m.vote_average.orElse fun _ => m.score with
  | some (.num q) => some q
  | _ => none

/-- Embeds getVoteCountValue (src/shared/cache.js). -/
def getVoteCountValue (m : Movie) : Option ℚ :=
  match m.vote_count.orElse fun _ => m.voteCount with
  | some (.num q) => some q
  | _ => none

/-- A ranked item: the original movie together with the added numeric
__priority field produced by applyPriorityOrdering. -/
structure Scored where
  movie : Movie
  priority : ℝ

/-- Milliseconds in the 365-day year used by the recency decay. -/
def yearMs : ℤ := 365 * 24 * 60 * 60 * 1000

/-- The maxVotes computation of applyPriorityOrdering: the largest
clamped-to-zero vote count in the candidate set, floored at 1. -/
def maxVotesInSet (candidates : List Movie) : ℚ :=
  (candidates.map fun m => max 0 ((getVoteCountValue m).getD 0)).foldr max 1

/-- The recency factor of applyPriorityOrdering: 1 for a release today or
in the future, decaying linearly to 0 at one year old, and a flat 1/2
when the release date is absent or unparseable. -/
def recencyScore (now : ℤ) (m : Movie) : ℚ :=
  match m.release_date with
  | some (some rel) =>
      let diff := now - rel
      if diff ≤ 0 then 1
      else if yearMs ≤ diff then 0
      else 1 - (diff : ℚ) / (yearMs : ℚ)
  | _ => 1/2

/-- The per-candidate composite priority computed inside
applyPriorityOrdering, exactly as the source arranges it. -/
noncomputable def priorityScore (now : ℤ) (maxVotes : ℚ) (m : Movie) : ℝ :=
  let averageValue : ℚ := (getVoteAverageValue m).getD 0
  let rawAverage : ℚ := max 0 (min 10 averageValue) / 10
  let votes : ℚ := max 0 ((getVoteCountValue m).getD 0)
  let voteVolume : ℝ :=
    Real.logb 10 ((votes : ℝ) + 1) / Real.logb 10 ((maxVotes : ℝ) + 1)
  let confidence : ℚ := min 1 (votes / 150)
  let adjustedAverage : ℚ := rawAverage * confidence + (6/10) * (1 - confidence)
  ((adjustedAverage : ℝ)) * (3/10) + Real.sqrt (max 0 voteVolume) * (5/10) +
    ((recencyScore now m : ℚ) : ℝ) * (2/10)

/-- The comparator of the final sort of applyPriorityOrdering: a sorts
before b when the numeric comparator (b.__priority - a.__priority) is at
most zero, i.e. in descending priority order. -/
def priorityDesc (a b : Scored) : Prop := b.priority ≤ a.priority

noncomputable instance : DecidableRel priorityDesc := fun a b =>
  inferInstanceAs (Decidable (b.priority ≤ a.priority))

instance : IsTotal Scored priorityDesc :=
  ⟨fun a b => (le_total b.priority a.priority).imp id id⟩

instance : IsTrans Scored priorityDesc :=
  ⟨fun _ _ _ h h' => le_trans h' h⟩

/-- Embeds applyPriorityOrdering (src/shared/cache.js): select candidates,
attach the composite __priority score (with maxVotes taken over the
candidate set), and stably sort in descending score order. -/
noncomputable def applyPriorityOrdering (now : ℤ) (movies : List Movie) :
    List Scored :=
  if movies = [] then []
  else
    let candidates := selectPriorityCandidates movies
    if candidates = [] then []
    else
      let maxVotes := maxVotesInSet candidates
      List.insertionSort priorityDesc
        (candidates.map fun m => ⟨m, priorityScore now maxVotes m⟩)

/-- A cache key part as serializePart (src/shared/cache.js) inspects it:
null/undefined, a string, a finite number, a boolean, a URLSearchParams
entry list, an array of parts, or a plain object (an entry list with
insertion order).  JavaScript number rendering is modelled by the
canonical rational rendering, which is deterministic, the only property
the key derivation relies on. -/
inductive KeyPart where
  | null : KeyPart
  | str (s : String) : KeyPart
  | num (q : ℚ) : KeyPart
  | bool (b : Bool) : KeyPart
  | params (entries : List (String × String)) : KeyPart
  | arr (parts : List KeyPart) : KeyPart
  | obj (entries : List (String × KeyPart)) : KeyPart

/-- Key order used when serializePart sorts object entries (the source
uses localeCompare; any total order yields the determinism properties
proved here). -/
def keyLE (a b : String × String) : Prop := a.1 ≤ b.1

instance : DecidableRel keyLE := fun a b =>
  inferInstanceAs (Decidable (a.1 ≤ b.1))

instance : IsTotal (String × String) keyLE := ⟨fun a b => le_total a.1 b.1⟩

instance : IsTrans (String × String) keyLE := ⟨fun _ _ _ h h2 => le_trans h h2⟩

mutual

/-- Embeds serializePart (src/shared/cache.js): strings pass through,
URLSearchParams join as k=v with ampersands, arrays join recursively with
bars, and objects are serialized with their entries sorted by key and
joined as k:v with commas. -/
def serializePart : KeyPart → String
  | .null => ""
  | .str s => s
  | .num q => toString q
  | .bool b => if b then "true" else "false"
  | .params entries =>
      String.intercalate "&" (entries.map fun kv => kv.1 ++ "=" ++ kv.2)
  | .arr parts => String.intercalate "|" (serializePartList parts)
  | .obj entries =>
      String.intercalate ","
        ((List.insertionSort keyLE (serializeEntryList entries)).map
          fun kv => kv.1 ++ ":" ++ kv.2)

/-- Serializes each element of an array part. -/
def serializePartList : List KeyPart → List String
  | [] => []
  | p :: rest => serializePart p :: serializePartList rest

/-- Serializes the value of each object entry (sorting by key commutes
with serializing values, so this matches the source's sort-then-serialize
order). -/
def serializeEntryList : List (String × KeyPart) → List (String × String)
  | [] => []
  | e :: rest => (e.1, serializePart e.2) :: serializeEntryList rest

end

/-- UTF-8 bytes of one character. -/
def utf8CharBytes (c : Char) : List ℕ :=
  let n := c.toNat
  if n < 128 then [n]
  else if n < 2048 then [192 + n / 64, 128 + n % 64]
  else if n < 65536 then [224 + n / 4096, 128 + n / 64 % 64, 128 + n % 64]
  else [240 + n / 262144, 128 + n / 4096 % 64, 128 + n / 64 % 64, 128 + n % 64]

/-- UTF-8 bytes of a string (Buffer.from with utf8 encoding). -/
def utf8Bytes (s : String) : List ℕ :=
  (s.toList.map utf8CharBytes).flatten

/-- The URL-safe base64 alphabet: standard base64 with + and / replaced by
- and _, as the source does with its two replace calls. -/
def base64UrlAlphabet : List Char :=
  "ABCDEFGHIJKLMNOPQRSTUVWXYZabcdefghijklmnopqrstuvwxyz0123456789-_".toList

/-- Character for a 6-bit group. -/
def b64c (n : ℕ) : Char := base64UrlAlphabet.getD n 'A'

/-- Base64 encoding over bytes, with padding stripped as the source's
final replace does. -/
def base64UrlEncode : List ℕ → List Char
  | [] => []
  | [b1] => [b64c (b1 / 4), b64c (b1 % 4 * 16)]
  | [b1, b2] => [b64c (b1 / 4), b64c (b1 % 4 * 16 + b2 / 16), b64c (b2 % 16 * 4)]
  | b1 :: b2 :: b3 :: rest =>
      b64c (b1 / 4) :: b64c (b1 % 4 * 16 + b2 / 16) ::
        b64c (b2 % 16 * 4 + b3 / 64) :: b64c (b3 % 64) :: base64UrlEncode rest

/-- Embeds buildCacheId (src/shared/cache.js): serialize every part, join
with a double bar, and base64url-encode the UTF-8 bytes. -/
def buildCacheId (parts : List KeyPart) : String :=
  let raw := String.intercalate "||" (parts.map serializePart)
  String.mk (base64UrlEncode (utf8Bytes raw))

/-- Parameter-pair order used by normalizeTmdbParams: compare keys, and
values when the keys are equal (the source's two localeCompare calls). -/
def paramLE (a b : String × String) : Prop :=
  a.1 < b.1 ∨ (a.1 = b.1 ∧ a.2 ≤ b.2)

instance : DecidableRel paramLE := fun a b =>
  inferInstanceAs (Decidable (a.1 < b.1 ∨ (a.1 = b.1 ∧ a.2 ≤ b.2)))

instance : IsTotal (String × String) paramLE := by
  constructor
  intro a b
  rcases lt_trichotomy a.1 b.1 with h | h | h
  · exact Or.inl (Or.inl h)
  · rcases le_total a.2 b.2 with h2 | h2
    · exact Or.inl (Or.inr ⟨h, h2⟩)
    · exact Or.inr (Or.inr ⟨h.symm, h2⟩)
  · exact Or.inr (Or.inl h)

instance : IsTrans (String × String) paramLE := by
  constructor
  rintro a b c (h | ⟨he, hv⟩) (h2 | ⟨he2, hv2⟩)
  · exact Or.inl (lt_trans h h2)
  · exact Or.inl (he2 ▸ h)
  · exact Or.inl (he ▸ h2)
  · exact Or.inr ⟨he.trans he2, le_trans hv hv2⟩

instance : IsAntisymm (String × String) paramLE := by
  constructor
  rintro ⟨ka, va⟩ ⟨kb, vb⟩ h h2
  simp only [paramLE] at h h2
  rcases h with h | ⟨he, hv⟩
  · rcases h2 with h2 | ⟨he2, hv2⟩
    · exact absurd (lt_trans h h2) (lt_irrefl _)
    · exact absurd (he2 ▸ h) (lt_irrefl _)
  · rcases h2 with h2 | ⟨he2, hv2⟩
    · exact absurd (he ▸ h2) (lt_irrefl _)
    · cases he
      exact congrArg (Prod.mk ka) (le_antisymm hv hv2)

/-- Embeds normalizeTmdbParams (the proxy source in src/unnamed/part_000):
drop every api_key entry, then sort by key and, within a key, by value. -/
def normalizeTmdbParams (params : List (String × String)) :
    List (String × String) :=
  List.insertionSort paramLE (params.filter fun kv => kv.1 ≠ "api_key")

/-- Embeds tmdbCacheKeyParts (src/unnamed/part_000): the cache key parts
are the literal tmdb tag, the trimmed path, and the normalized parameter
list joined as k=v with ampersands. -/
def tmdbCacheKeyParts (path : String) (params : List (String × String)) :
    List KeyPart :=
  let normalizedPath := path.trim
  let serializedParams :=
    String.intercalate "&"
      ((normalizeTmdbParams params).map fun kv => kv.1 ++ "=" ++ kv.2)
  [.str "tmdb", .str normalizedPath, .str serializedParams]

/-- The derived cache key of a proxied tmdb request (readTmdbCache and
writeTmdbCache both pass tmdbCacheKeyParts to buildCacheId). -/
def tmdbCacheKey (path : String) (params : List (String × String)) : String :=
  buildCacheId (tmdbCacheKeyParts path params)

/-- A caller-supplied cache payload before normalization; a some field
models the matching typeof check passing in the source. -/
structure CachePayloadIn where
  status : Option ℤ
  contentType : Option String
  body : Option String
  metadata : Option String
deriving DecidableEq, Repr

/-- A normalized cache payload as returned to readers. -/
structure CacheEntryOut where
  status : ℤ
  contentType : String
  body : String
  metadata : Option String
deriving DecidableEq, Repr

/-- An entry of the bounded in-memory fallback map. -/
structure MemEntry where
  status : ℤ
  contentType : String
  body : String
  metadata : Option String
  fetchedAt : ℤ
deriving DecidableEq, Repr

/-- A Firestore cache document as read back (fetchedAt is the stored
timestamp in milliseconds; none models a missing or malformed field). -/
structure DocData where
  status : Option ℤ
  contentType : Option String
  body : Option String
  metadata : Option String
  fetchedAt : Option ℤ
deriving DecidableEq, Repr

/-- The payload normalization shared by rememberInMemory,
readCachedResponse and writeCachedResponse: default status 200, default
content type application/json (also when the given one is empty). -/
def normalizePayload (p : CachePayloadIn) : CacheEntryOut :=
  { status := p.status.getD 200
    contentType :=
      match p.contentType with
      | some s => if s = "" then "application/json" else s
      | none => "application/json"
    body := p.body.getD ""
    metadata := p.metadata }

/-- View of a normalized payload as a raw payload, used where the source
passes an already-normalized payload back into rememberInMemory. -/
def CacheEntryOut.toIn (e : CacheEntryOut) : CachePayloadIn :=
  { status := some e.status, contentType := some e.contentType
    body := some e.body, metadata := e.metadata }

/-- Bound of the in-memory fallback map. -/
def MAX_IN_MEMORY_CACHE_ENTRIES : ℕ := 500

/-- JavaScript Map set: replace in place when the key exists, append
otherwise. -/
def setAssoc (m : List (String × MemEntry)) (k : String) (e : MemEntry) :
    List (String × MemEntry) :=
  if (m.filter fun kv => kv.1 = k) = [] then m ++ [(k, e)]
  else m.map fun kv => if kv.1 = k then (k, e) else kv

/-- First value stored under a key (JavaScript Map get). -/
def getAssoc (m : List (String × MemEntry)) (k : String) : Option MemEntry :=
  match m.filter fun kv => kv.1 = k with
  | [] => none
  | kv :: _ => some kv.2

/-- JavaScript Map delete. -/
def delAssoc (m : List (String × MemEntry)) (k : String) :
    List (String × MemEntry) :=
  m.filter fun kv => kv.1 ≠ k

/-- Embeds rememberInMemory (src/shared/cache.js): skip in
Firestore-required mode, on a missing doc id, or on a missing/empty body;
otherwise store the normalized payload with its fetch time and evict the
oldest entry once the bound is exceeded. -/
def rememberInMemory (requireFirestore : Bool)
    (mem : List (String × MemEntry)) (docId : String) (p : CachePayloadIn)
    (fetchedAt : ℤ) : List (String × MemEntry) :=
  if requireFirestore then mem
  else if docId = "" then mem
  else
    match p.body with
    | none => mem
    | some b =>
      if b = "" then mem
      else
        let n := normalizePayload p
        let entry : MemEntry :=
          { status := n.status, contentType := n.contentType, body := n.body
            metadata := n.metadata, fetchedAt := fetchedAt }
        let m2 := setAssoc mem docId entry
        if MAX_IN_MEMORY_CACHE_ENTRIES < m2.length then m2.drop 1 else m2

/-- Embeds readInMemoryCache (src/shared/cache.js); returns the payload
found (if fresh) together with the updated map, since an expired entry is
deleted on read. -/
def readInMemoryCache (requireFirestore : Bool)
    (mem : List (String × MemEntry)) (docId : String) (ttlMs : Option ℤ)
    (now : ℤ) : Option CacheEntryOut × List (String × MemEntry) :=
  if requireFirestore then (none, mem)
  else if docId = "" then (none, mem)
  else
    match getAssoc mem docId with
    | none => (none, mem)
    | some e =>
      match ttlMs with
      | some ttl =>
        if 0 < ttl ∧ ttl < now - e.fetchedAt then (none, delAssoc mem docId)
        else
          (some { status := e.status, contentType := e.contentType
                  body := e.body, metadata := e.metadata }, mem)
      | none =>
          (some { status := e.status, contentType := e.contentType
                  body := e.body, metadata := e.metadata }, mem)

/-- Outcome of one Firestore document get: the catch branch, a missing
document, or its data. -/
inductive DbRead where
  | err : DbRead
  | missing : DbRead
  | found (data : DocData) : DbRead

/-- Embeds readCachedResponse (src/shared/cache.js).  The Firestore
backend is an oracle from doc id to read outcome (none when getFirestore
returned null).  Returns the payload served and the updated in-memory
fallback map. -/
def readCachedResponse (requireFirestore : Bool)
    (db : Option (String → DbRead)) (mem : List (String × MemEntry))
    (parts : List KeyPart) (ttlMs : Option ℤ) (now : ℤ) :
    Option CacheEntryOut × List (String × MemEntry) :=
  let docId := buildCacheId parts
  match db with
  | none =>
      if requireFirestore then (none, mem)
      else readInMemoryCache requireFirestore mem docId ttlMs now
  | some get =>
    match get docId with
    | .err =>
        if requireFirestore then (none, mem)
        else readInMemoryCache requireFirestore mem docId ttlMs now
    | .missing =>
        if requireFirestore then (none, mem)
        else readInMemoryCache requireFirestore mem docId ttlMs now
    | .found data =>
      match data.body with
      | none =>
          if requireFirestore then (none, mem)
          else readInMemoryCache requireFirestore mem docId ttlMs now
      | some b =>
        if b = "" then
          if requireFirestore then (none, mem)
          else readInMemoryCache requireFirestore mem docId ttlMs now
        else
          let payload : CacheEntryOut :=
            { status := data.status.getD 200
              contentType :=
                match data.contentType with
                | some s => if s = "" then "application/json" else s
                | none => "application/json"
              body := b
              metadata := data.metadata }
          match data.fetchedAt with
          | none =>
            match ttlMs with
            | some ttl =>
              if 0 < ttl then
                if requireFirestore then (none, mem)
                else readInMemoryCache requireFirestore mem docId ttlMs now
              else
                (some payload,
                 rememberInMemory requireFirestore mem docId payload.toIn now)
            | none =>
                (some payload,
                 rememberInMemory requireFirestore mem docId payload.toIn now)
          | some fetchedMs =>
            if fetchedMs = 0 then
              match ttlMs with
              | some ttl =>
                if 0 < ttl then
                  if requireFirestore then (none, mem)
                  else readInMemoryCache requireFirestore mem docId ttlMs now
                else
                  (some payload,
                   rememberInMemory requireFirestore mem docId payload.toIn now)
              | none =>
                  (some payload,
                   rememberInMemory requireFirestore mem docId payload.toIn now)
            else
              match ttlMs with
              | some ttl =>
                if 0 < ttl ∧ ttl < now - fetchedMs then (none, delAssoc mem docId)
                else
                  (some payload,
                   rememberInMemory requireFirestore mem docId payload.toIn
                     fetchedMs)
              | none =>
                  (some payload,
                   rememberInMemory requireFirestore mem docId payload.toIn
                     fetchedMs)

/-- Embeds writeCachedResponse (src/shared/cache.js): a no-op on an empty
body; otherwise remember in memory and write the normalized payload with
a server timestamp to Firestore when available (write failures are
swallowed, modelled by the writeOk flag).  Returns the updated in-memory
map and durable store. -/
def writeCachedResponse (requireFirestore : Bool)
    (store : Option (String → Option DocData)) (writeOk : Bool)
    (mem : List (String × MemEntry)) (parts : List KeyPart)
    (p : CachePayloadIn) (now : ℤ) :
    List (String × MemEntry) × Option (String → Option DocData) :=
  match p.body with
  | none => (mem, store)
  | some b =>
    if b = "" then (mem, store)
    else
      let docId := buildCacheId parts
      let n := normalizePayload p
      let mem2 := rememberInMemory requireFirestore mem docId n.toIn now
      match store with
      | none => (mem2, none)
      | some st =>
        if writeOk then
          (mem2,
           some fun d =>
             if d = docId then
               some { status := some n.status, contentType := some n.contentType
                      body := some n.body, metadata := n.metadata
                      fetchedAt := some now }
             else st d)
        else (mem2, some st)

/-- Enrichment state of one item's critic scores. -/
inductive CriticStatus where
  | idle : CriticStatus
  | loading : CriticStatus
  | loaded : CriticStatus
  | error : CriticStatus
deriving DecidableEq, Repr

/-- Outcome of the critic-score fetch: a response that normalizes to a
score bundle, a response with no usable scores, or a network/HTTP
failure. -/
inductive CriticFetchOutcome where
  | ok : CriticFetchOutcome
  | badShape : CriticFetchOutcome
  | httpError : CriticFetchOutcome
deriving DecidableEq, Repr

/-- Embeds the status transitions of requestCriticScores
(src/shared/cache.js) as the sequence of statuses the item is moved
through by setCriticScoreState: nothing when the non-forced guard trips
(current status loading or loaded and force not set), a direct error when
no lookup info is available, and otherwise loading followed by the fetch
outcome. -/
def requestCriticScoresTrace (current : CriticStatus) (force : Bool)
    (hasLookup : Bool) (outcome : CriticFetchOutcome) : List CriticStatus :=
  if ¬force ∧ (current = .loading ∨ current = .loaded) then []
  else if ¬hasLookup then [.error]
  else
    match outcome with
    | .ok => [.loading, .loaded]
    | .badShape => [.loading, .error]
    | .httpError => [.loading, .error]

/-- Discover paging constants of src/shared/cache.js. -/
def INITIAL_DISCOVER_PAGES : ℤ := 3

/-- Default page allowance per discovery run. -/
def MAX_DISCOVER_PAGES : ℤ := 10

/-- Absolute ceiling of the elastic page allowance. -/
def MAX_DISCOVER_PAGES_LIMIT : ℤ := 30

/-- Size cap of the per-signature discover history map. -/
def TMDB_DISCOVER_HISTORY_LIMIT : ℕ := 50

/-- A normalized discover-cursor entry as stored in tmdbDiscoverHistory. -/
structure DiscoverEntry where
  nextPage : ℤ
  allowedPages : ℤ
  totalPages : Option ℤ
  exhausted : Bool
  updatedAt : ℤ
  lastAttempt : Option ℤ
deriving DecidableEq, Repr

/-- A raw state object passed to writeTmdbDiscoverState; none models a
non-finite numeric field. -/
structure RawDiscoverWrite where
  nextPage : Option ℚ
  allowedPages : Option ℚ
  totalPages : Option ℚ
  exhausted : Bool
deriving DecidableEq, Repr

/-- First entry stored under a signature (JavaScript Map get). -/
def findDE (hist : List (String × DiscoverEntry)) (k : String) :
    Option DiscoverEntry :=
  match hist.filter fun kv => kv.1 = k with
  | [] => none
  | kv :: _ => some kv.2

/-- Oldest-first eviction once the history map exceeds its cap. -/
def evictHist : List (String × DiscoverEntry) → List (String × DiscoverEntry)
  | [] => []
  | x :: rest =>
      if TMDB_DISCOVER_HISTORY_LIMIT < (x :: rest).length then evictHist rest
      else x :: rest

/-- Embeds readTmdbDiscoverState (src/shared/cache.js). -/
def readTmdbDiscoverState (hist : List (String × DiscoverEntry))
    (key : String) : Option DiscoverEntry :=
  if key = "" then none else findDE hist key

/-- Embeds writeTmdbDiscoverState (src/shared/cache.js): normalize the
state (positive finite pages floored, next page defaulting to 1, the
allowance floored at MAX_DISCOVER_PAGES and at the next page), refresh
only the timestamps when nothing else changed, otherwise move the
signature to the newest slot and evict the oldest entries beyond the
history cap. -/
def writeTmdbDiscoverState (hist : List (String × DiscoverEntry))
    (key : String) (state : Option RawDiscoverWrite) (now : ℤ) :
    List (String × DiscoverEntry) :=
  if key = "" then hist
  else
    match state with
    | none => hist
    | some raw =>
      let normalizedTotal : Option ℤ :=
        match raw.totalPages with
        | some q => if 0 < q then some (Rat.floor q) else none
        | none => none
      let normalizedAllowed : ℤ :=
        match raw.allowedPages with
        | some q => if 0 < q then Rat.floor q else MAX_DISCOVER_PAGES
        | none => MAX_DISCOVER_PAGES
      let nextPage : ℤ :=
        match raw.nextPage with
        | some q => if 0 < q then Rat.floor q else 1
        | none => 1
      let payload : DiscoverEntry :=
        { nextPage := if 0 < nextPage then nextPage else 1
          allowedPages :=
            max MAX_DISCOVER_PAGES
              (max (if 0 < normalizedAllowed then normalizedAllowed
                    else MAX_DISCOVER_PAGES)
                (if 0 < nextPage then nextPage else 1))
          totalPages :=
            match normalizedTotal with
            | some t => if 0 < t then some t else none
            | none => none
          exhausted := raw.exhausted
          updatedAt := now
          lastAttempt := if 0 < now then some now else none }
      match findDE hist key with
      | some existing =>
        if existing.nextPage = payload.nextPage ∧
            existing.allowedPages = payload.allowedPages ∧
            existing.totalPages = payload.totalPages ∧
            existing.exhausted = payload.exhausted then
          hist.map fun kv =>
            if kv.1 = key then
              (key,
               { existing with
                 updatedAt := payload.updatedAt
                 lastAttempt := payload.lastAttempt })
            else kv
        else
          evictHist ((hist.filter fun kv => kv.1 ≠ key) ++ [(key, payload)])
      | none =>
          evictHist ((hist.filter fun kv => kv.1 ≠ key) ++ [(key, payload)])

/-- One upstream discover page as the paging loop consumes it. -/
structure DiscoverPage where
  results : List Movie
  totalPages : Option ℚ

/-- One step of the id-based accumulation shared by the existing-movie
pass and the page-result pass of fetchMoviesFromTmdb: entries without an
id are dropped, already-seen ids are skipped, and (for page results)
suppressed ids are remembered as seen but not collected. -/
def collectStep (suppressed : String → Bool)
    (acc : List String × List Movie) (m : Movie) :
    List String × List Movie :=
  match m.id with
  | none => acc
  | some k =>
    if k ∈ acc.1 then acc
    else (acc.1 ++ [k], if suppressed k then acc.2 else acc.2 ++ [m])

/-- The existing-movie pass of fetchMoviesFromTmdb (no suppression is
applied there). -/
def collectExisting (existing : List Movie) : List String × List Movie :=
  existing.foldl (collectStep fun _ => false) ([], [])

/-- Loop condition page ≤ totalPages, where no known total means
Infinity. -/
def pageLeTotal (page : ℤ) : Option ℚ → Bool
  | none => true
  | some t => decide ((page : ℚ) ≤ t)

/-- Result of the paging while-loop of fetchMoviesFromTmdb. -/
structure LoopRes where
  nextPage : ℤ
  allowed : ℤ
  total : Option ℚ
  reachedEnd : Bool
  madeReq : Bool
  requests : ℕ
  seen : List String
  collected : List Movie
  served : Bool

/-- The paging while-loop of fetchMoviesFromTmdb, fuelled (the fuel chosen
by the caller strictly exceeds the remaining page budget, so the zero-fuel
branch mirrors the ordinary loop exit and is never the deciding exit).
Each iteration fetches one page, trusts a freshly reported positive total
page count, merges unseen unsuppressed results, and either serves once the
filtered feed is large enough, stops at a confirmed empty tail, or
advances, growing the elastic allowance up to the absolute limit. -/
noncomputable def discoverLoop (feedFilters : List Scored → List Scored)
    (fetchPage : ℤ → DiscoverPage) (now : ℤ) (minFeedSize : ℤ)
    (suppressed : String → Bool) :
    ℕ → ℤ → ℤ → Option ℚ → List String → List Movie → Bool → ℕ → LoopRes
  | 0, page, allowed, total, seen, collected, madeReq, requests =>
      ⟨page, allowed, total, false, madeReq, requests, seen, collected, false⟩
  | fuel + 1, page, allowed, total, seen, collected, madeReq, requests =>
    if page ≤ allowed ∧ pageLeTotal page total = true then
      let pg := fetchPage page
      let total2 : Option ℚ :=
        match pg.totalPages with
        | some q => if 0 < q then some q else total
        | none => total
      let acc := pg.results.foldl (collectStep suppressed) (seen, collected)
      let prioritized := applyPriorityOrdering now acc.2
      if minFeedSize ≤ ((feedFilters prioritized).length : ℤ) then
        ⟨page + 1, allowed, total2, false, true, requests + 1, acc.1, acc.2,
         true⟩
      else if pg.results = [] ∧
          (match total2 with
           | none => true
           | some t => decide (t ≤ (page : ℚ))) = true then
        ⟨page + 1, allowed, total2, true, true, requests + 1, acc.1, acc.2,
         false⟩
      else
        let page2 := page + 1
        let allowed2 :=
          if allowed < page2 ∧ allowed < MAX_DISCOVER_PAGES_LIMIT then
            min MAX_DISCOVER_PAGES_LIMIT (max (allowed + INITIAL_DISCOVER_PAGES) page2)
          else allowed
        discoverLoop feedFilters fetchPage now minFeedSize suppressed fuel
          page2 allowed2 total2 acc.1 acc.2 true (requests + 1)
    else ⟨page, allowed, total, false, madeReq, requests, seen, collected,
          false⟩

/-- The payload commitProgress hands to writeTmdbDiscoverState. -/
def commitProgress (page allowed : ℤ) (total : Option ℚ) (reachedEnd : Bool)
    (exhaustedArg : Option Bool) : RawDiscoverWrite :=
  let normalizedTotal : Option ℚ :=
    match total with
    | some q => if 0 < q then some q else none
    | none => none
  { nextPage := some ((max 1 page : ℤ) : ℚ)
    allowedPages := some ((max (max allowed MAX_DISCOVER_PAGES) page : ℤ) : ℚ)
    totalPages := normalizedTotal
    exhausted :=
      match exhaustedArg with
      | some b => b
      | none =>
        reachedEnd &&
          (match normalizedTotal with
           | none => true
           | some t => decide (t ≤ ((page - 1 : ℤ) : ℚ))) }

/-- The page the discovery loop resumes from for a stored cursor state
(Math.max of 1 and the falsy-guarded stored next page). -/
def resumePage (history : Option DiscoverEntry) : ℤ :=
  max 1 (match history with
         | some h => if h.nextPage = 0 then 1 else h.nextPage
         | none => 1)

/-- Result of one fetchMoviesFromTmdb call: the returned ranked list, the
number of upstream page fetches performed, and the cursor-state payloads
written for the request signature. -/
structure FetchOut where
  result : List Scored
  requests : ℕ
  writes : List RawDiscoverWrite

/-- Embeds fetchMoviesFromTmdb (src/shared/cache.js) for a fixed request
signature.  The ambient feed-filter state is abstracted as the function
applyFeedFilters closes over, the upstream (proxy or direct) as a page
oracle, and the id-suppression set as a predicate.  The call first serves
from the deduplicated existing movies when the filtered feed is already
large enough, then consults the stored cursor: a cursor already exhausted
at a known positive total below the resume page short-circuits with no
network traffic, and otherwise the paging loop runs and its progress is
committed. -/
noncomputable def fetchMoviesFromTmdb (feedFilters : List Scored → List Scored)
    (fetchPage : ℤ → DiscoverPage) (now : ℤ) (minFeedSize : ℤ)
    (suppressed : String → Bool) (existing : List Movie)
    (history : Option DiscoverEntry) : FetchOut :=
  let acc0 := collectExisting existing
  let prioritized := applyPriorityOrdering now acc0.2
  if minFeedSize ≤ ((feedFilters prioritized).length : ℤ) then
    ⟨prioritized, 0, []⟩
  else
    let page := resumePage history
    let allowed :=
      max (max MAX_DISCOVER_PAGES
            (match history with
             | some h => if 0 < h.allowedPages then h.allowedPages
                         else MAX_DISCOVER_PAGES
             | none => MAX_DISCOVER_PAGES))
        page
    let total : Option ℚ :=
      match history with
      | some h =>
        match h.totalPages with
        | some t => if 0 < t then some (t : ℚ) else none
        | none => none
      | none => none
    let exhaustedSkip : Bool :=
      match history with
      | some h =>
        h.exhausted &&
          (match h.totalPages with
           | some t => decide (0 < t) && decide (t < page)
           | none => false)
      | none => false
    if exhaustedSkip then
      ⟨if prioritized.isEmpty then applyPriorityOrdering now acc0.2
        else prioritized, 0, []⟩
    else
      let fuel := (max allowed MAX_DISCOVER_PAGES_LIMIT + 1 - page).toNat + 1
      let r := discoverLoop feedFilters fetchPage now minFeedSize suppressed
        fuel page allowed total acc0.1 acc0.2 false 0
      if r.served then
        ⟨applyPriorityOrdering now r.collected, r.requests,
         [commitProgress r.nextPage r.allowed r.total false (some false)]⟩
      else
        let reachedEnd2 :=
          r.reachedEnd ||
            (!r.reachedEnd && r.madeReq &&
              (match r.total with
               | some t => decide (0 < t) && decide (t < (r.nextPage : ℚ))
               | none => false))
        let writes :=
          if r.madeReq then
            [commitProgress r.nextPage r.allowed r.total reachedEnd2 none]
          else []
        let pr := applyPriorityOrdering now r.collected
        ⟨if pr.isEmpty then applyPriorityOrdering now r.collected else pr,
         r.requests, writes⟩

/-- A duplicate pair the specification's flat completeness score decides
differently from the source's weighted one: this instance has only a
poster. -/
def cexPosterOnly : Movie :=
  { emptyMovie with
    id := some "1"
    poster_path := true }

/-- The richer duplicate: rating, vote count and release date present. -/
def cexThreeFields : Movie :=
  { emptyMovie with
    id := some "1"
    vote_average := some (.num 7)
    vote_count := some (.num 10)
    release_date := some (some 0) }

/-- C3 counterexample movie meeting the strictest tier. -/
def cexStrong : Movie :=
  { emptyMovie with
    id := some "a"
    vote_average := some (.num 8)
    vote_count := some (.num 100) }

/-- C3 counterexample movie with numeric rating and votes below every
tier. -/
def cexWeak : Movie :=
  { emptyMovie with
    id := some "b"
    vote_average := some (.num 1)
    vote_count := some (.num 1) }

/-- Invariant carried through the dedupe fold: every seen entry points at
the kept instance with its score, every processed id is tracked with a
score at least its own, keys are unique, and every kept instance with an
id is tracked at its own index. -/
def MergeInv (processed : List Movie) (s : MergeState) : Prop :=
  (∀ k i sc, (k, i, sc) ∈ s.seen →
    ∃ mv, s.result.get? i = some mv ∧ mv.id = some k ∧
      scoreMovieForMerge mv = sc) ∧
  (∀ m ∈ processed, ∀ k, m.id = some k →
    ∃ i sc, (k, i, sc) ∈ s.seen ∧ scoreMovieForMerge m ≤ sc) ∧
  (s.seen.map fun e => e.1).Nodup ∧
  (∀ i mv k, s.result.get? i = some mv → mv.id = some k →
    ∃ sc, (k, i, sc) ∈ s.seen)

/-- View of a durable store as the read oracle of readCachedResponse. -/
def dbReadOf (st : String → Option DocData) : String → DbRead :=
  fun d =>
    match st d with
    | some dd => .found dd
    | none => .missing

/-- C1 witness list: twelve items passing the strictest tier. -/
def witnessMovies : List Movie := List.replicate 12 cexStrong

/-- Concrete stored cursor entry used by the monotonicity witness. -/
def wEntry : DiscoverEntry := ⟨1, 10, some 1, false, 0, none⟩

/-- C2 counterexample: dedupeMoviesById keeps the poster-only first
instance although the claim's "+1 each" completeness score of the second
instance is strictly higher, so the merge does not keep the instance with
the higher spec-worded completeness score. -/
theorem dedupe_spec_score_counterexample :
    dedupeMoviesById [cexPosterOnly, cexThreeFields] = [cexPosterOnly] ∧
    specCompletenessScore cexPosterOnly <
      specCompletenessScore cexThreeFields := by
  decide

/-- Evaluated tier list: the source's threshold arithmetic yields the
three advertised tiers. -/
theorem priorityThresholds_eval :
    priorityThresholds = [(7, 50), (13/2, 25), (6, 10)] := by
  norm_num [priorityThresholds, MIN_VOTE_AVERAGE, MIN_VOTE_COUNT, Rat.floor]

/-- C3 counterexample: no tier reaches the minimum candidate count (12),
yet selection returns the first non-empty tier rather than falling back to
every item with numeric rating and votes, which the claim predicts. -/
theorem selectPriorityCandidates_counterexample :
    selectPriorityCandidates [cexStrong, cexWeak] = [cexStrong] ∧
    ([cexStrong, cexWeak].filter hasNumericRatingAndVotes =
      [cexStrong, cexWeak]) ∧
    [cexStrong] ≠ [cexStrong, cexWeak] := by
  refine ⟨?_, by decide, by decide⟩
  have hs2 : meetsQualityThreshold cexStrong (13/2) 25 = true := by
    simp only [meetsQualityThreshold, cexStrong, emptyMovie]
    norm_num
  have hw2 : meetsQualityThreshold cexWeak (13/2) 25 = false := by
    simp only [meetsQualityThreshold, cexWeak, emptyMovie]
    norm_num
  have f2 : List.filter (fun m => meetsQualityThreshold m (13/2) 25)
      [cexStrong, cexWeak] = [cexStrong] := by
    simp [List.filter, hs2, hw2]
  have f1 : List.filter (fun m => meetsQualityThreshold m 7 50)
      [cexStrong, cexWeak] = [cexStrong] := by decide
  have f3 : List.filter (fun m => meetsQualityThreshold m 6 10)
      [cexStrong, cexWeak] = [cexStrong] := by decide
  show selectPriorityCandidates [cexStrong, cexWeak] = [cexStrong]
  rw [selectPriorityCandidates, if_neg (by decide), priorityThresholds_eval]
  simp only [selectFromThresholds, f1, f2, f3]
  decide

/-- C9 counterexample: an entry without an id is passed through once per
occurrence, so merging a list with itself duplicates it and the merge is
not idempotent on such lists. -/
theorem dedupe_idempotence_counterexample :
    dedupeMoviesById ([emptyMovie] ++ [emptyMovie]) ≠
      dedupeMoviesById [emptyMovie] := by
  decide

/-- C7 counterexample: a non-forced request on an item in error state
moves it back into loading (the source's guard only covers loading and
loaded), contradicting the claim that only a forced refresh can do so. -/
theorem criticScores_error_retry_counterexample :
    requestCriticScoresTrace .error false true .ok = [.loading, .loaded] := by
  decide

/-- C7 amended: non-forced requests leave loading/loaded items untouched;
a transition into loading starts from idle or error or carries force; and
every request produces one of the legal traces (nothing, a direct error
when lookup info is missing, or loading followed by loaded or error). -/
theorem requestCriticScores_transitions :
    ∀ (s : CriticStatus) (force hasLookup : Bool)
      (outcome : CriticFetchOutcome),
      (force = false → s = .loading ∨ s = .loaded →
        requestCriticScoresTrace s force hasLookup outcome = []) ∧
      (CriticStatus.loading ∈
          requestCriticScoresTrace s force hasLookup outcome →
        force = true ∨ s = .idle ∨ s = .error) ∧
      (requestCriticScoresTrace s force hasLookup outcome = [] ∨
       requestCriticScoresTrace s force hasLookup outcome = [.error] ∨
       requestCriticScoresTrace s force hasLookup outcome =
         [.loading, .loaded] ∨
       requestCriticScoresTrace s force hasLookup outcome =
         [.loading, .error]) := by
  intro s force hasLookup outcome
  cases s <;> cases force <;> cases hasLookup <;> cases outcome <;> decide

/-- C7 witness: the guard of requestCriticScores at a concrete loaded,
non-forced call. -/
theorem requestCriticScores_transitions_witness :
    requestCriticScoresTrace .loaded false true .ok = [] :=
  (requestCriticScores_transitions .loaded false true .ok).1 rfl (Or.inr rfl)

/-- Sorting the filtered parameter list is determined by its multiset of
entries. -/
theorem normalizeTmdbParams_perm (p1 p2 : List (String × String))
    (h : List.Perm (p1.filter fun kv => kv.1 ≠ "api_key")
      (p2.filter fun kv => kv.1 ≠ "api_key")) :
    normalizeTmdbParams p1 = normalizeTmdbParams p2 := by
  apply List.eq_of_perm_of_sorted (r := paramLE)
  · exact ((List.perm_insertionSort paramLE _).trans h).trans
      (List.perm_insertionSort paramLE _).symm
  · exact List.sorted_insertionSort paramLE _
  · exact List.sorted_insertionSort paramLE _

/-- C4: tmdb cache keys are insensitive to parameter order (the key
derivation canonicalizes by sorting) and to the excluded api_key
credential (it is filtered out before the key is built). -/
theorem tmdbCacheKey_deterministic :
    ∀ (path : String) (p1 p2 : List (String × String)),
      (List.Perm p1 p2 → tmdbCacheKey path p1 = tmdbCacheKey path p2) ∧
      ((p1.filter fun kv => kv.1 ≠ "api_key") =
          (p2.filter fun kv => kv.1 ≠ "api_key") →
        tmdbCacheKey path p1 = tmdbCacheKey path p2) := by
  intro path p1 p2
  constructor
  · intro h
    have he : normalizeTmdbParams p1 = normalizeTmdbParams p2 :=
      normalizeTmdbParams_perm p1 p2 (h.filter _)
    simp [tmdbCacheKey, tmdbCacheKeyParts, he]
  · intro h
    have he : normalizeTmdbParams p1 = normalizeTmdbParams p2 :=
      normalizeTmdbParams_perm p1 p2 (h ▸ List.Perm.refl _)
    simp [tmdbCacheKey, tmdbCacheKeyParts, he]

/-- C4 witness: a concrete reordered parameter list yields the same key,
and adding the excluded api_key credential leaves the key unchanged. -/
theorem tmdbCacheKey_deterministic_witness :
    (tmdbCacheKey "/3/discover/movie"
        [("page", "2"), ("sort_by", "popularity.desc")] =
      tmdbCacheKey "/3/discover/movie"
        [("sort_by", "popularity.desc"), ("page", "2")]) ∧
    (tmdbCacheKey "/3/discover/movie"
        [("page", "2"), ("api_key", "SECRET"),
         ("sort_by", "popularity.desc")] =
      tmdbCacheKey "/3/discover/movie"
        [("page", "2"), ("sort_by", "popularity.desc")]) :=
  ⟨(tmdbCacheKey_deterministic "/3/discover/movie"
      [("page", "2"), ("sort_by", "popularity.desc")]
      [("sort_by", "popularity.desc"), ("page", "2")]).1 (by decide),
   (tmdbCacheKey_deterministic "/3/discover/movie"
      [("page", "2"), ("api_key", "SECRET"), ("sort_by", "popularity.desc")]
      [("page", "2"), ("sort_by", "popularity.desc")]).2 (by decide)⟩

/-- A missing seen entry means no stored entry carries the key. -/
theorem findSeen_eq_none {k : String} {l : List (String × ℕ × ℕ)}
    (h : findSeen k l = none) : ∀ e ∈ l, e.1 ≠ k := by
  induction l with
  | nil => intro e he; cases he
  | cons x rest ih =>
    intro e he
    rw [findSeen] at h
    by_cases hx : x.1 = k
    · simp [hx] at h
    · simp only [hx, if_false] at h
      rcases List.mem_cons.mp he with he | he
      · simpa [he] using hx
      · exact ih h e he

/-- A found seen entry is a stored entry. -/
theorem findSeen_mem {k : String} {l : List (String × ℕ × ℕ)} {v : ℕ × ℕ}
    (h : findSeen k l = some v) : (k, v) ∈ l := by
  induction l with
  | nil => simp [findSeen] at h
  | cons x rest ih =>
    rw [findSeen] at h
    by_cases hx : x.1 = k
    · simp only [hx, if_true, Option.some.injEq] at h
      refine List.mem_cons.mpr (Or.inl ?_)
      cases x
      simp only at hx h
      rw [hx, h]
    · simp only [hx, if_false] at h
      exact List.mem_cons_of_mem _ (ih h)

/-- With nodup keys, a stored entry is the one findSeen returns. -/
theorem findSeen_of_mem {k : String} {v : ℕ × ℕ}
    {l : List (String × ℕ × ℕ)} (hm : (k, v) ∈ l)
    (hnd : (l.map fun e => e.1).Nodup) : findSeen k l = some v := by
  induction l with
  | nil => cases hm
  | cons x rest ih =>
    rw [findSeen]
    rw [List.map_cons, List.nodup_cons] at hnd
    rcases List.mem_cons.mp hm with hm | hm
    · simp [← hm]
    · have hx : x.1 ≠ k := by
        intro hk
        have hkm : k ∈ rest.map fun e => e.1 :=
          List.mem_map.mpr ⟨(k, v), hm, rfl⟩
        exact hnd.1 (hk ▸ hkm)
      simp only [hx, if_false]
      exact ih hm hnd.2

/-- Updating a score keeps the key list unchanged. -/
theorem updateSeenScore_keys (k : String) (sc : ℕ)
    (l : List (String × ℕ × ℕ)) :
    ((updateSeenScore k sc l).map fun e => e.1) = l.map fun e => e.1 := by
  induction l with
  | nil => rfl
  | cons x rest ih =>
    simp only [updateSeenScore, List.map_cons] at ih ⊢
    by_cases hx : x.1 = k <;> simp [hx, ih]

/-- A successful lookup index is in range. -/
theorem get?_some_lt {α : Type} {l : List α} {n : ℕ} {a : α}
    (h : l.get? n = some a) : n < l.length := by
  by_contra hn
  rw [List.get?_eq_none.mpr (Nat.le_of_not_lt hn)] at h
  cases h

/-- Two seen entries with the same key coincide when keys are nodup. -/
theorem seen_key_unique {l : List (String × ℕ × ℕ)}
    (hnd : (l.map fun e => e.1).Nodup) {k : String} {v1 v2 : ℕ × ℕ}
    (h1 : (k, v1) ∈ l) (h2 : (k, v2) ∈ l) : v1 = v2 := by
  have e1 := findSeen_of_mem h1 hnd
  have e2 := findSeen_of_mem h2 hnd
  rw [e1] at e2
  exact Option.some.inj e2

/-- Membership in an updated seen map, forward direction. -/
theorem of_mem_updateSeenScore {k : String} {sc : ℕ}
    {l : List (String × ℕ × ℕ)} {e2 : String × ℕ × ℕ}
    (h : e2 ∈ updateSeenScore k sc l) :
    ∃ e ∈ l, e2 = if e.1 = k then (e.1, e.2.1, sc) else e := by
  rcases List.mem_map.mp h with ⟨e, he, heq⟩
  exact ⟨e, he, heq.symm⟩

/-- The dedupe loop body preserves the merge invariant. -/
theorem mergeInv_step {processed : List Movie} {s : MergeState} (m : Movie)
    (h : MergeInv processed s) : MergeInv (processed ++ [m]) (dedupeStep s m) := by
  obtain ⟨h1, h2, h3, h4⟩ := h
  cases hid : m.id with
  | none =>
    refine ⟨?_, ?_, ?_, ?_⟩
    · intro k i sc hmem
      simp only [dedupeStep, hid] at hmem ⊢
      obtain ⟨mv, hget, hmvid, hmvsc⟩ := h1 k i sc hmem
      exact ⟨mv, by rw [List.get?_append (get?_some_lt hget)]; exact hget,
        hmvid, hmvsc⟩
    · intro m2 hm2 k hk
      simp only [dedupeStep, hid]
      rcases List.mem_append.mp hm2 with hm2 | hm2
      · exact h2 m2 hm2 k hk
      · rw [List.mem_singleton.mp hm2] at hk
        rw [hid] at hk
        cases hk
    · simpa only [dedupeStep, hid] using h3
    · intro i mv k hget hk
      simp only [dedupeStep, hid] at hget ⊢
      rcases Nat.lt_or_ge i s.result.length with hi | hi
      · rw [List.get?_append hi] at hget
        exact h4 i mv k hget hk
      · rcases Nat.eq_or_lt_of_le hi with he | hgt
        · rw [← he, List.get?_concat_length] at hget
          rw [← Option.some.inj hget] at hk
          rw [hid] at hk
          cases hk
        · rw [List.get?_eq_none.mpr (by simp; omega)] at hget
          cases hget
  | some k0 =>
    cases hfind : findSeen k0 s.seen with
    | none =>
      have hnotin : ∀ e ∈ s.seen, e.1 ≠ k0 := findSeen_eq_none hfind
      refine ⟨?_, ?_, ?_, ?_⟩
      · intro k i sc hmem
        simp only [dedupeStep, hid, hfind] at hmem ⊢
        rcases List.mem_append.mp hmem with hmem | hmem
        · obtain ⟨mv, hget, hmvid, hmvsc⟩ := h1 k i sc hmem
          exact ⟨mv, by rw [List.get?_append (get?_some_lt hget)]; exact hget,
            hmvid, hmvsc⟩
        · rcases List.mem_singleton.mp hmem with heq
          injection heq with hk0 hrest
          injection hrest with hi0 hsc0
          refine ⟨m, ?_, by rw [hid, hk0], hsc0.symm⟩
          rw [hi0]
          exact List.get?_concat_length _ _
      · intro m2 hm2 k hk
        simp only [dedupeStep, hid, hfind]
        rcases List.mem_append.mp hm2 with hm2 | hm2
        · obtain ⟨i, sc, hmem, hle⟩ := h2 m2 hm2 k hk
          exact ⟨i, sc, List.mem_append_left _ hmem, hle⟩
        · rw [List.mem_singleton.mp hm2] at hk
          rw [hid] at hk
          injection hk with hk
          refine ⟨s.result.length, scoreMovieForMerge m, ?_, ?_⟩
          · rw [← hk]
            exact List.mem_append_right _ (List.mem_singleton.mpr rfl)
          · rw [List.mem_singleton.mp hm2]
      · simp only [dedupeStep, hid, hfind, List.map_append, List.map_cons,
          List.map_nil]
        rw [List.nodup_append]
        refine ⟨h3, List.nodup_singleton _, ?_⟩
        intro a ha hb
        rw [List.mem_singleton.mp hb] at ha
        rcases List.mem_map.mp ha with ⟨e, he, hek⟩
        exact hnotin e he hek
      · intro i mv k hget hk
        simp only [dedupeStep, hid, hfind] at hget ⊢
        rcases Nat.lt_or_ge i s.result.length with hi | hi
        · rw [List.get?_append hi] at hget
          obtain ⟨sc, hsc⟩ := h4 i mv k hget hk
          exact ⟨sc, List.mem_append_left _ hsc⟩
        · rcases Nat.eq_or_lt_of_le hi with he | hgt
          · rw [← he, List.get?_concat_length] at hget
            rw [← Option.some.inj hget] at hk
            rw [hid] at hk
            injection hk with hk
            refine ⟨scoreMovieForMerge m, ?_⟩
            rw [← hk, he]
            exact List.mem_append_right _ (List.mem_singleton.mpr rfl)
          · rw [List.get?_eq_none.mpr (by simp; omega)] at hget
            cases hget
    | some v =>
      obtain ⟨idx, sc⟩ := v
      have hvmem : (k0, idx, sc) ∈ s.seen := findSeen_mem hfind
      obtain ⟨mv0, hget0, hid0, hsc0⟩ := h1 k0 idx sc hvmem
      have hidx : idx < s.result.length := get?_some_lt hget0
      by_cases hlt : sc < scoreMovieForMerge m
      · refine ⟨?_, ?_, ?_, ?_⟩
        · intro k i sc2 hmem
          simp only [dedupeStep, hid, hfind, if_pos hlt] at hmem ⊢
          obtain ⟨e, he, heq⟩ := of_mem_updateSeenScore hmem
          by_cases hek : e.1 = k0
          · rw [if_pos hek] at heq
            injection heq with hk hrest
            injection hrest with hi hsc2
            have he' : (k0, e.2.1, e.2.2) ∈ s.seen := by
              rw [← hek]
              simpa using he
            have := seen_key_unique h3 he' hvmem
            injection this with hi2 hsc2'
            refine ⟨m, ?_, by rw [hid, hk, hek], hsc2.symm⟩
            rw [hi, hi2]
            exact List.get?_set_eq_of_lt m hidx
          · rw [if_neg hek] at heq
            rw [← heq] at he
            obtain ⟨mv, hget, hmvid, hmvsc⟩ := h1 k i sc2 he
            have hik : i ≠ idx := by
              intro hii
              rw [hii, hget0] at hget
              rw [← Option.some.inj hget] at hmvid
              rw [hid0] at hmvid
              injection hmvid with hkk
              apply hek
              rw [← heq]
              exact hkk.symm
            refine ⟨mv, ?_, hmvid, hmvsc⟩
            rw [List.get?_set_ne m s.result hik.symm]
            exact hget
        · intro m2 hm2 k hk
          simp only [dedupeStep, hid, hfind, if_pos hlt]
          rcases List.mem_append.mp hm2 with hm2 | hm2
          · obtain ⟨i, sc2, hmem, hle⟩ := h2 m2 hm2 k hk
            by_cases hkk : k = k0
            · have hmem' : (k0, i, sc2) ∈ s.seen := hkk ▸ hmem
              have := seen_key_unique h3 hmem' hvmem
              injection this with hi hsc2
              refine ⟨idx, scoreMovieForMerge m, ?_, ?_⟩
              · have := List.mem_map_of_mem
                  (fun e => if e.1 = k0 then (e.1, e.2.1, scoreMovieForMerge m) else e)
                  hvmem
                simpa [updateSeenScore, hkk] using this
              · subst hsc2
                exact le_trans hle (le_of_lt hlt)
            · refine ⟨i, sc2, ?_, hle⟩
              have := List.mem_map_of_mem
                (fun e => if e.1 = k0 then (e.1, e.2.1, scoreMovieForMerge m) else e)
                hmem
              simpa [updateSeenScore, hkk] using this
          · rw [List.mem_singleton.mp hm2] at hk ⊢
            rw [hid] at hk
            injection hk with hk
            refine ⟨idx, scoreMovieForMerge m, ?_, le_refl _⟩
            have := List.mem_map_of_mem
              (fun e => if e.1 = k0 then (e.1, e.2.1, scoreMovieForMerge m) else e)
              hvmem
            rw [← hk]
            simpa [updateSeenScore] using this
        · simp only [dedupeStep, hid, hfind, if_pos hlt]
          rw [updateSeenScore_keys]
          exact h3
        · intro i mv k hget hk
          simp only [dedupeStep, hid, hfind, if_pos hlt] at hget ⊢
          by_cases hii : i = idx
          · rw [hii, List.get?_set_eq_of_lt m hidx] at hget
            rw [← Option.some.inj hget] at hk
            rw [hid] at hk
            injection hk with hk
            refine ⟨scoreMovieForMerge m, ?_⟩
            have := List.mem_map_of_mem
              (fun e => if e.1 = k0 then (e.1, e.2.1, scoreMovieForMerge m) else e)
              hvmem
            rw [← hk, hii]
            simpa [updateSeenScore] using this
          · rw [List.get?_set_ne m s.result (Ne.symm hii)] at hget
            obtain ⟨sc2, hsc2⟩ := h4 i mv k hget hk
            by_cases hkk : k = k0
            · have hmem' : (k0, i, sc2) ∈ s.seen := hkk ▸ hsc2
              have := seen_key_unique h3 hmem' hvmem
              injection this with hi
              exact absurd hi hii
            · refine ⟨sc2, ?_⟩
              have := List.mem_map_of_mem
                (fun e => if e.1 = k0 then (e.1, e.2.1, scoreMovieForMerge m) else e)
                hsc2
              simpa [updateSeenScore, hkk] using this
      · have hstep : dedupeStep s m = s := by
          simp [dedupeStep, hid, hfind, hlt]
        rw [hstep]
        refine ⟨h1, ?_, h3, h4⟩
        intro m2 hm2 k hk
        rcases List.mem_append.mp hm2 with hm2 | hm2
        · exact h2 m2 hm2 k hk
        · rw [List.mem_singleton.mp hm2] at hk ⊢
          rw [hid] at hk
          injection hk with hk
          exact ⟨idx, sc, hk ▸ hvmem, Nat.le_of_not_lt hlt⟩

/-- The merge invariant holds after folding any list. -/
theorem mergeInv_foldl (l : List Movie) :
    ∀ (p : List Movie) (s : MergeState), MergeInv p s →
      MergeInv (p ++ l) (l.foldl dedupeStep s) := by
  induction l with
  | nil => intro p s h; simpa using h
  | cons m rest ih =>
    intro p s h
    have h2 := ih (p ++ [m]) (dedupeStep s m) (mergeInv_step m h)
    simpa using h2

/-- The merge invariant for the full dedupe run. -/
theorem mergeInv_dedupe (l : List Movie) :
    MergeInv l (l.foldl dedupeStep ⟨[], []⟩) := by
  have hbase : MergeInv [] ⟨[], []⟩ := by
    refine ⟨?_, ?_, ?_, ?_⟩
    · intro k i sc hmem; cases hmem
    · intro m hm; cases hm
    · simp
    · intro i mv k hget; rw [List.get?_eq_none.mpr (by simp)] at hget; cases hget
  simpa using mergeInv_foldl l [] ⟨[], []⟩ hbase

/-- C2 amended: for duplicated ids, dedupeMoviesById keeps an instance
whose weighted completeness score (poster 3, overview 2, the other
informative fields 1 each) is at least that of every input instance with
the same id. -/
theorem dedupe_keeps_highest_merge_score :
    ∀ (l : List Movie) (x : Movie), x ∈ dedupeMoviesById l →
      ∀ y ∈ l, ∀ k, x.id = some k → y.id = some k →
        scoreMovieForMerge y ≤ scoreMovieForMerge x := by
  intro l x hx y hy k hxk hyk
  obtain ⟨h1, h2, h3, h4⟩ := mergeInv_dedupe l
  obtain ⟨i, hi⟩ := List.get?_of_mem hx
  obtain ⟨sc, hsc⟩ := h4 i x k hi hxk
  obtain ⟨mv, hmv, hmvid, hmvsc⟩ := h1 k i sc hsc
  have hxmv : x = mv := by
    have hi2 : (l.foldl dedupeStep ⟨[], []⟩).result.get? i = some x := hi
    rw [hi2] at hmv
    exact Option.some.inj hmv
  obtain ⟨i2, sc2, hmem2, hle2⟩ := h2 y hy k hyk
  have huniq := seen_key_unique h3 hsc hmem2
  injection huniq with hi2 hsc2
  rw [hxmv, hmvsc, hsc2]
  exact hle2

/-- C2 witness: the kept poster-only duplicate scores at least as high as
the dropped three-field duplicate under the source's weighting. -/
theorem dedupe_keeps_highest_merge_score_witness :
    scoreMovieForMerge cexThreeFields ≤ scoreMovieForMerge cexPosterOnly :=
  dedupe_keeps_highest_merge_score [cexPosterOnly, cexThreeFields]
    cexPosterOnly (by decide) cexThreeFields (by decide) "1" (by decide)
    (by decide)

/-- Replaying an already-tracked movie leaves the merge state unchanged. -/
theorem dedupeStep_noop {p : List Movie} {s : MergeState}
    (inv : MergeInv p s) {m : Movie} (hm : m ∈ p) {k : String}
    (hk : m.id = some k) : dedupeStep s m = s := by
  obtain ⟨h1, h2, h3, h4⟩ := inv
  obtain ⟨i, sc, hmem, hle⟩ := h2 m hm k hk
  have hf : findSeen k s.seen = some (i, sc) := findSeen_of_mem hmem h3
  simp [dedupeStep, hk, hf, Nat.not_lt.mpr hle]

/-- Folding a list of no-op steps is the identity. -/
theorem foldl_noop {l : List Movie} {s : MergeState}
    (h : ∀ m ∈ l, dedupeStep s m = s) : l.foldl dedupeStep s = s := by
  induction l with
  | nil => rfl
  | cons m rest ih =>
    rw [List.foldl_cons, h m (List.mem_cons_self m rest)]
    exact ih fun m2 hm2 => h m2 (List.mem_cons_of_mem m hm2)

/-- C9 amended: on lists whose entries all carry an id, the
deduplication merge is idempotent: merging the concatenation of a list
with itself yields exactly the merge of the list. -/
theorem dedupe_idempotent_on_identified :
    ∀ l : List Movie, (∀ m ∈ l, m.id ≠ none) →
      dedupeMoviesById (l ++ l) = dedupeMoviesById l := by
  intro l hids
  unfold dedupeMoviesById
  rw [List.foldl_append]
  congr 1
  apply foldl_noop
  intro m hm
  cases hid : m.id with
  | none => exact absurd hid (hids m hm)
  | some k => exact dedupeStep_noop (mergeInv_dedupe l) hm hid

/-- C9 witness: a concrete identified list is merged idempotently. -/
theorem dedupe_idempotent_on_identified_witness :
    dedupeMoviesById ([cexStrong, cexWeak] ++ [cexStrong, cexWeak]) =
      dedupeMoviesById [cexStrong, cexWeak] :=
  dedupe_idempotent_on_identified [cexStrong, cexWeak] (by decide)

/-- C3 amended: candidate selection applies the three quality tiers in
order and returns the first tier reaching 12 matches; when none reaches
12 it returns the first non-empty tier; only when every tier is empty
does it fall back to the items with both a numeric vote_average and a
numeric vote_count. -/
theorem selectPriorityCandidates_tiers (l : List Movie) :
    selectPriorityCandidates l =
      (if 12 ≤ (l.filter fun m => meetsQualityThreshold m 7 50).length then
        l.filter fun m => meetsQualityThreshold m 7 50
      else if 12 ≤ (l.filter fun m => meetsQualityThreshold m (13/2) 25).length then
        l.filter fun m => meetsQualityThreshold m (13/2) 25
      else if 12 ≤ (l.filter fun m => meetsQualityThreshold m 6 10).length then
        l.filter fun m => meetsQualityThreshold m 6 10
      else if (l.filter fun m => meetsQualityThreshold m 7 50) ≠ [] then
        l.filter fun m => meetsQualityThreshold m 7 50
      else if (l.filter fun m => meetsQualityThreshold m (13/2) 25) ≠ [] then
        l.filter fun m => meetsQualityThreshold m (13/2) 25
      else if (l.filter fun m => meetsQualityThreshold m 6 10) ≠ [] then
        l.filter fun m => meetsQualityThreshold m 6 10
      else l.filter hasNumericRatingAndVotes) := by
  rw [selectPriorityCandidates]
  by_cases hnil : l = []
  · subst hnil; simp
  · rw [if_neg hnil, priorityThresholds_eval]
    simp only [selectFromThresholds, MIN_PRIORITY_RESULTS]
    split_ifs <;> simp_all

/-- The content-type normalization never yields the empty string. -/
theorem contentTypeNorm_ne (ct : Option String) :
    (match ct with
     | some s => if s = "" then "application/json" else s
     | none => "application/json") ≠ "" := by
  match ct with
  | none => decide
  | some s =>
    show (if s = "" then "application/json" else s) ≠ ""
    by_cases hs : s = ""
    · rw [if_pos hs]; decide
    · rw [if_neg hs]; exact hs

/-- The normalized content type is never the empty string. -/
theorem normalizePayload_contentType_ne (p : CachePayloadIn) :
    (normalizePayload p).contentType ≠ "" :=
  contentTypeNorm_ne p.contentType

/-- Normalization is idempotent through the toIn view. -/
theorem normalizePayload_toIn (p : CachePayloadIn) :
    normalizePayload ((normalizePayload p).toIn) = normalizePayload p := by
  have h := normalizePayload_contentType_ne p
  simp only [normalizePayload, CacheEntryOut.toIn] at h ⊢
  simp only [Option.getD_some]
  rw [if_neg h]

/-- Lookup of a key appended after a key-free prefix. -/
theorem getAssoc_append_last {pre : List (String × MemEntry)} {k : String}
    {e : MemEntry} (h : (pre.filter fun kv => kv.1 = k) = []) :
    getAssoc (pre ++ [(k, e)]) k = some e := by
  unfold getAssoc
  rw [List.filter_append, h]
  simp

/-- Lookup after an in-place replacement of a present key. -/
theorem getAssoc_map_replace {m : List (String × MemEntry)} {k : String}
    {e : MemEntry} (h : (m.filter fun kv => kv.1 = k) ≠ []) :
    getAssoc (m.map fun kv => if kv.1 = k then (k, e) else kv) k = some e := by
  induction m with
  | nil => simp at h
  | cons x rest ih =>
    by_cases hx : x.1 = k
    · simp [getAssoc, hx]
    · have h2 : (rest.filter fun kv => kv.1 = k) ≠ [] := by
        simpa [List.filter_cons, hx] using h
      simpa [getAssoc, List.filter_cons, hx] using ih h2

/-- Dropped prefixes keep a filter empty. -/
theorem filter_drop_eq_nil {m : List (String × MemEntry)} {k : String}
    (h : (m.filter fun kv => kv.1 = k) = []) (n : ℕ) :
    ((m.drop n).filter fun kv => kv.1 = k) = [] := by
  rw [List.filter_eq_nil_iff] at h ⊢
  exact fun a ha => h a (List.mem_of_mem_drop ha)

/-- Setting a key and evicting the oldest entry when over the cap still
finds the new entry. -/
theorem getAssoc_set_evict {mem : List (String × MemEntry)} {k : String}
    {e : MemEntry} (hlen : mem.length ≤ MAX_IN_MEMORY_CACHE_ENTRIES) :
    getAssoc
      (if MAX_IN_MEMORY_CACHE_ENTRIES < (setAssoc mem k e).length then
        (setAssoc mem k e).drop 1
      else setAssoc mem k e) k = some e := by
  unfold setAssoc
  by_cases hf : (mem.filter fun kv => kv.1 = k) = []
  · rw [if_pos hf]
    by_cases h2 : MAX_IN_MEMORY_CACHE_ENTRIES < (mem ++ [(k, e)]).length
    · rw [if_pos h2]
      have hne : mem ≠ [] := by
        intro h0
        rw [h0] at h2
        simp [MAX_IN_MEMORY_CACHE_ENTRIES] at h2
      rw [List.drop_append_of_le_length
        (by cases mem with
            | nil => exact absurd rfl hne
            | cons a t => simp)]
      exact getAssoc_append_last (filter_drop_eq_nil hf 1)
    · rw [if_neg h2]
      exact getAssoc_append_last hf
  · rw [if_neg hf]
    rw [if_neg (by rw [List.length_map]; omega)]
    exact getAssoc_map_replace hf

/-- A remembered entry is found again under its doc id, carrying the
normalized payload and its fetch time. -/
theorem getAssoc_rememberInMemory {mem : List (String × MemEntry)}
    {docId : String} {p : CachePayloadIn} {b : String} {T : ℤ}
    (hb : p.body = some b) (hbne : b ≠ "") (hid : docId ≠ "")
    (hlen : mem.length ≤ MAX_IN_MEMORY_CACHE_ENTRIES) :
    getAssoc (rememberInMemory false mem docId p T) docId =
      some { status := (normalizePayload p).status
             contentType := (normalizePayload p).contentType
             body := (normalizePayload p).body
             metadata := (normalizePayload p).metadata
             fetchedAt := T } := by
  simp only [rememberInMemory, Bool.false_eq_true, if_false, if_neg hid, hb,
    if_neg hbne]
  exact getAssoc_set_evict hlen

/-- C8: a cache entry written at time T with a positive caller-supplied
ttl is served again at T+ttl-1 and treated as a miss at T+ttl+1, both by
the in-memory fallback (durable store unreachable at read time) and by
the durable-store read path. -/
theorem cache_ttl_respected :
    ∀ (mem : List (String × MemEntry)) (st : String → Option DocData)
      (parts : List KeyPart) (p : CachePayloadIn) (b : String) (T ttl : ℤ),
      p.body = some b → b ≠ "" → 0 < ttl → 0 < T →
      mem.length ≤ MAX_IN_MEMORY_CACHE_ENTRIES →
      buildCacheId parts ≠ "" →
      ((readCachedResponse false none
          (writeCachedResponse false (some st) true mem parts p T).1 parts
          (some ttl) (T + ttl - 1)).1 = some (normalizePayload p) ∧
       (readCachedResponse false none
          (writeCachedResponse false (some st) true mem parts p T).1 parts
          (some ttl) (T + ttl + 1)).1 = none) ∧
      ((readCachedResponse false
          (Option.map dbReadOf
            (writeCachedResponse false (some st) true mem parts p T).2) mem
          parts (some ttl) (T + ttl - 1)).1 = some (normalizePayload p) ∧
       (readCachedResponse false
          (Option.map dbReadOf
            (writeCachedResponse false (some st) true mem parts p T).2) mem
          parts (some ttl) (T + ttl + 1)).1 = none) := by
  intro mem st parts p b T ttl hb hbne httl hT hlen hdoc
  have hnb : (normalizePayload p).body = b := by simp [normalizePayload, hb]
  have hnbne : (normalizePayload p).body ≠ "" := by rw [hnb]; exact hbne
  have hw : writeCachedResponse false (some st) true mem parts p T =
      (rememberInMemory false mem (buildCacheId parts)
         (normalizePayload p).toIn T,
       some fun d =>
         if d = buildCacheId parts then
           some { status := some (normalizePayload p).status
                  contentType := some (normalizePayload p).contentType
                  body := some (normalizePayload p).body
                  metadata := (normalizePayload p).metadata
                  fetchedAt := some T }
         else st d) := by
    simp only [writeCachedResponse, hb]
    rw [if_neg hbne, if_pos trivial]
  have hget : getAssoc
      (rememberInMemory false mem (buildCacheId parts)
        (normalizePayload p).toIn T) (buildCacheId parts) =
      some { status := (normalizePayload p).status
             contentType := (normalizePayload p).contentType
             body := (normalizePayload p).body
             metadata := (normalizePayload p).metadata
             fetchedAt := T } := by
    have h := @getAssoc_rememberInMemory mem (buildCacheId parts)
      ((normalizePayload p).toIn) ((normalizePayload p).body) T
      rfl hnbne hdoc hlen
    rw [normalizePayload_toIn] at h
    exact h
  refine ⟨⟨?_, ?_⟩, ?_, ?_⟩
  · rw [hw]
    simp only [readCachedResponse, readInMemoryCache, Bool.false_eq_true,
      if_false, if_neg hdoc, hget]
    rw [if_neg (by omega)]
  · rw [hw]
    simp only [readCachedResponse, readInMemoryCache, Bool.false_eq_true,
      if_false, if_neg hdoc, hget]
    rw [if_pos (by omega)]
  · rw [hw]
    simp only [readCachedResponse, Option.map_some', dbReadOf, if_pos rfl,
      if_true, Bool.false_eq_true, if_false]
    rw [if_neg hnbne]
    rw [if_neg (by omega : ¬T = 0)]
    rw [if_neg (by omega : ¬(0 < ttl ∧ ttl < T + ttl - 1 - T))]
    simp only [Option.getD_some]
    rw [if_neg (normalizePayload_contentType_ne p)]
  · rw [hw]
    simp only [readCachedResponse, Option.map_some', dbReadOf, if_pos rfl,
      if_true, Bool.false_eq_true, if_false]
    rw [if_neg hnbne]
    rw [if_neg (by omega : ¬T = 0)]
    rw [if_pos (by omega : 0 < ttl ∧ ttl < T + ttl + 1 - T)]

/-- C8 witness: the TTL boundary at a concrete write and read pair. -/
theorem cache_ttl_respected_witness :
    ((readCachedResponse false none
        (writeCachedResponse false (some fun _ => none) true []
          [.str "x"] ⟨none, none, some "body", none⟩ 5).1
        [.str "x"] (some 3) (5 + 3 - 1)).1 =
      some (normalizePayload ⟨none, none, some "body", none⟩) ∧
     (readCachedResponse false none
        (writeCachedResponse false (some fun _ => none) true []
          [.str "x"] ⟨none, none, some "body", none⟩ 5).1
        [.str "x"] (some 3) (5 + 3 + 1)).1 = none) ∧
    ((readCachedResponse false
        (Option.map dbReadOf
          (writeCachedResponse false (some fun _ => none) true []
            [.str "x"] ⟨none, none, some "body", none⟩ 5).2) []
        [.str "x"] (some 3) (5 + 3 - 1)).1 =
      some (normalizePayload ⟨none, none, some "body", none⟩) ∧
     (readCachedResponse false
        (Option.map dbReadOf
          (writeCachedResponse false (some fun _ => none) true []
            [.str "x"] ⟨none, none, some "body", none⟩ 5).2) []
        [.str "x"] (some 3) (5 + 3 + 1)).1 = none) :=
  cache_ttl_respected [] (fun _ => none) [.str "x"]
    ⟨none, none, some "body", none⟩ "body" 5 3 rfl (by decide) (by decide)
    (by decide) (by decide) (by decide)

/-- Passing a tier with positive bounds requires present finite rating
and vote values. -/
theorem meetsQualityThreshold_numeric {m : Movie} {minA minV : ℚ}
    (hA : 0 < minA) (hV : 0 < minV)
    (h : meetsQualityThreshold m minA minV = true) :
    getVoteAverageValue m ≠ none ∧ getVoteCountValue m ≠ none := by
  unfold meetsQualityThreshold at h
  unfold getVoteAverageValue getVoteCountValue
  cases hva : m.vote_average.orElse fun _ => m.score with
  | none =>
    exfalso
    rw [hva] at h
    cases hvc : m.vote_count.orElse fun _ => m.voteCount with
    | none =>
      rw [hvc] at h
      simp only [Option.getD_none, Bool.and_eq_true, decide_eq_true_eq] at h
      exact absurd h.1 (not_le.mpr hA)
    | some v =>
      rw [hvc] at h
      cases v with
      | nan => simp [Option.getD_none, Option.getD_some] at h
      | num q =>
        simp only [Option.getD_none, Option.getD_some, Bool.and_eq_true,
          decide_eq_true_eq] at h
        exact absurd h.1 (not_le.mpr hA)
  | some v =>
    cases v with
    | nan =>
      exfalso
      rw [hva] at h
      cases hvc : m.vote_count.orElse fun _ => m.voteCount with
      | none => rw [hvc] at h; simp at h
      | some w => rw [hvc] at h; cases w <;> simp at h
    | num q =>
      rw [hva] at h
      refine ⟨by simp, ?_⟩
      cases hvc : m.vote_count.orElse fun _ => m.voteCount with
      | none =>
        exfalso
        rw [hvc] at h
        simp only [Option.getD_none, Option.getD_some, Bool.and_eq_true,
          decide_eq_true_eq] at h
        exact absurd h.2 (not_le.mpr hV)
      | some w =>
        cases w with
        | nan => exfalso; rw [hvc] at h; simp at h
        | num r => simp

/-- A finite final-fallback item has present finite rating and vote
values. -/
theorem hasNumericRatingAndVotes_numeric {m : Movie}
    (h : hasNumericRatingAndVotes m = true) :
    getVoteAverageValue m ≠ none ∧ getVoteCountValue m ≠ none := by
  unfold hasNumericRatingAndVotes at h
  unfold getVoteAverageValue getVoteCountValue
  rw [Bool.and_eq_true] at h
  constructor
  · cases hva : m.vote_average with
    | none => rw [hva] at h; simp [JsNum.isFinite] at h
    | some v =>
      cases v with
      | nan => rw [hva] at h; simp [JsNum.isFinite] at h
      | num q => simp
  · cases hvc : m.vote_count with
    | none => rw [hvc] at h; simp [JsNum.isFinite] at h
    | some v =>
      cases v with
      | nan => rw [hvc] at h; simp [JsNum.isFinite] at h
      | num q => simp

/-- Every movie the threshold loop returns is an input movie with present
finite rating and vote count. -/
theorem selectFromThresholds_mem {l : List Movie} :
    ∀ (ts : List (ℚ × ℚ)) (best : List Movie),
      (∀ t ∈ ts, 0 < t.1 ∧ 0 < t.2) →
      (∀ x ∈ best, x ∈ l ∧ getVoteAverageValue x ≠ none ∧
        getVoteCountValue x ≠ none) →
      ∀ x ∈ selectFromThresholds l ts best,
        x ∈ l ∧ getVoteAverageValue x ≠ none ∧
          getVoteCountValue x ≠ none := by
  intro ts
  induction ts with
  | nil =>
    intro best hts hbest x hx
    rw [selectFromThresholds] at hx
    by_cases hb : best ≠ []
    · rw [if_pos hb] at hx
      exact hbest x hx
    · rw [if_neg hb] at hx
      have hf := List.mem_filter.mp hx
      exact ⟨hf.1, hasNumericRatingAndVotes_numeric hf.2⟩
  | cons t rest ih =>
    intro best hts hbest x hx
    rw [selectFromThresholds] at hx
    have ht := hts t (List.mem_cons_self t rest)
    by_cases h12 : MIN_PRIORITY_RESULTS ≤
        (l.filter fun m => meetsQualityThreshold m t.1 t.2).length
    · rw [if_pos h12] at hx
      have hf := List.mem_filter.mp hx
      exact ⟨hf.1, meetsQualityThreshold_numeric ht.1 ht.2 hf.2⟩
    · rw [if_neg h12] at hx
      refine ih _ (fun t2 ht2 => hts t2 (List.mem_cons_of_mem t ht2)) ?_ x hx
      intro y hy
      by_cases hc : best = [] ∧
          (l.filter fun m => meetsQualityThreshold m t.1 t.2) ≠ []
      · rw [if_pos hc] at hy
        have hf := List.mem_filter.mp hy
        exact ⟨hf.1, meetsQualityThreshold_numeric ht.1 ht.2 hf.2⟩
      · rw [if_neg hc] at hy
        exact hbest y hy

/-- Every selected candidate is an input movie with present finite rating
and vote count. -/
theorem selectPriorityCandidates_numeric (l : List Movie) :
    ∀ x ∈ selectPriorityCandidates l,
      x ∈ l ∧ getVoteAverageValue x ≠ none ∧
        getVoteCountValue x ≠ none := by
  intro x hx
  rw [selectPriorityCandidates] at hx
  by_cases hnil : l = []
  · rw [if_pos hnil] at hx; cases hx
  · rw [if_neg hnil] at hx
    refine selectFromThresholds_mem priorityThresholds [] ?_ (by simp) x hx
    rw [priorityThresholds_eval]
    intro t ht
    simp only [List.mem_cons, List.not_mem_nil, or_false] at ht
    rcases ht with ht | ht | ht <;> subst ht <;>
      exact ⟨by norm_num, by norm_num⟩

/-- The candidate-set vote maximum is at least one. -/
theorem maxVotesInSet_ge_one (l : List Movie) : 1 ≤ maxVotesInSet l := by
  unfold maxVotesInSet
  induction (l.map fun m => max 0 ((getVoteCountValue m).getD 0)) with
  | nil => exact le_refl 1
  | cons x rest ih =>
    rw [List.foldr_cons]
    exact le_trans ih (le_max_right x _)

/-- The composite priority equals the claim's arrangement of the formula:
0.3 times the confidence-adjusted rating plus 0.5 times the square root
of the normalized log vote volume plus 0.2 times the recency factor. -/
theorem priorityScore_eq (now : ℤ) (maxV : ℚ) (hmax : 1 ≤ maxV)
    (m : Movie) :
    priorityScore now maxV m =
      (3/10 : ℝ) *
        ((max 0 (min 10 ((getVoteAverageValue m).getD 0)) / 10 *
            min 1 (max 0 ((getVoteCountValue m).getD 0) / 150) +
          (6/10) * (1 - min 1 (max 0 ((getVoteCountValue m).getD 0) / 150)) :
          ℚ) : ℝ) +
      (5/10 : ℝ) *
        Real.sqrt
          (Real.logb 10 (((max 0 ((getVoteCountValue m).getD 0) : ℚ) : ℝ) + 1) /
           Real.logb 10 ((maxV : ℝ) + 1)) +
      (2/10 : ℝ) * ((recencyScore now m : ℚ) : ℝ) := by
  simp only [priorityScore]
  have h0 : (0 : ℝ) ≤ ((max 0 ((getVoteCountValue m).getD 0) : ℚ) : ℝ) := by
    have : (0 : ℚ) ≤ max 0 ((getVoteCountValue m).getD 0) := le_max_left 0 _
    exact_mod_cast this
  have hlog1 : 0 ≤
      Real.logb 10 (((max 0 ((getVoteCountValue m).getD 0) : ℚ) : ℝ) + 1) :=
    Real.logb_nonneg (by norm_num) (by linarith)
  have hlog2 : 0 ≤ Real.logb 10 ((maxV : ℝ) + 1) := by
    have hm : (1 : ℝ) ≤ (maxV : ℝ) := by exact_mod_cast hmax
    exact Real.logb_nonneg (by norm_num) (by linarith)
  rw [max_eq_right (div_nonneg hlog1 hlog2)]
  push_cast
  ring

/-- C1: on a non-empty candidate set, applyPriorityOrdering returns the
candidates, each carrying the composite score 0.3 times the
confidence-adjusted rating (the 0-1 clamped rating blended with the 0.6
neutral prior weighted by min(1, votes/150)) plus 0.5 times the square
root of log10(votes+1)/log10(maxVotesInSet+1) plus 0.2 times the recency
factor, sorted in descending score order. -/
theorem applyPriorityOrdering_spec (now : ℤ) (movies : List Movie)
    (h : selectPriorityCandidates movies ≠ []) :
    List.Perm (applyPriorityOrdering now movies)
      ((selectPriorityCandidates movies).map fun m =>
        ⟨m,
         (3/10 : ℝ) *
           ((max 0 (min 10 ((getVoteAverageValue m).getD 0)) / 10 *
               min 1 (max 0 ((getVoteCountValue m).getD 0) / 150) +
             (6/10) *
               (1 - min 1 (max 0 ((getVoteCountValue m).getD 0) / 150)) :
             ℚ) : ℝ) +
         (5/10 : ℝ) *
           Real.sqrt
             (Real.logb 10
                (((max 0 ((getVoteCountValue m).getD 0) : ℚ) : ℝ) + 1) /
              Real.logb 10
                ((maxVotesInSet (selectPriorityCandidates movies) : ℝ) + 1)) +
         (2/10 : ℝ) * ((recencyScore now m : ℚ) : ℝ)⟩) ∧
    List.Sorted (fun a b => a ≥ b)
      ((applyPriorityOrdering now movies).map Scored.priority) := by
  have hmne : movies ≠ [] := by
    intro h0
    rw [h0] at h
    exact h rfl
  have happ : applyPriorityOrdering now movies =
      List.insertionSort priorityDesc
        ((selectPriorityCandidates movies).map fun m =>
          ⟨m, priorityScore now (maxVotesInSet (selectPriorityCandidates movies)) m⟩) := by
    simp only [applyPriorityOrdering, if_neg hmne, if_neg h]
  constructor
  · rw [happ]
    refine (List.perm_insertionSort _ _).trans ?_
    have hmap : ((selectPriorityCandidates movies).map fun m =>
        (⟨m, priorityScore now (maxVotesInSet (selectPriorityCandidates movies)) m⟩ : Scored)) =
        (selectPriorityCandidates movies).map fun m =>
          ⟨m,
           (3/10 : ℝ) *
             ((max 0 (min 10 ((getVoteAverageValue m).getD 0)) / 10 *
                 min 1 (max 0 ((getVoteCountValue m).getD 0) / 150) +
               (6/10) *
                 (1 - min 1 (max 0 ((getVoteCountValue m).getD 0) / 150)) :
               ℚ) : ℝ) +
           (5/10 : ℝ) *
             Real.sqrt
               (Real.logb 10
                  (((max 0 ((getVoteCountValue m).getD 0) : ℚ) : ℝ) + 1) /
                Real.logb 10
                  ((maxVotesInSet (selectPriorityCandidates movies) : ℝ) + 1)) +
           (2/10 : ℝ) * ((recencyScore now m : ℚ) : ℝ)⟩ := by
      apply List.map_congr_left
      intro m _
      rw [priorityScore_eq now _ (maxVotesInSet_ge_one _) m]
    rw [hmap]
  · rw [happ]
    have hs := List.sorted_insertionSort priorityDesc
      ((selectPriorityCandidates movies).map fun m =>
        ⟨m, priorityScore now (maxVotesInSet (selectPriorityCandidates movies)) m⟩)
    exact List.pairwise_map.mpr hs

/-- C1 witness: the ordering specification at a concrete candidate set. -/
theorem applyPriorityOrdering_spec_witness :
    List.Perm (applyPriorityOrdering 0 witnessMovies)
      ((selectPriorityCandidates witnessMovies).map fun m =>
        ⟨m,
         (3/10 : ℝ) *
           ((max 0 (min 10 ((getVoteAverageValue m).getD 0)) / 10 *
               min 1 (max 0 ((getVoteCountValue m).getD 0) / 150) +
             (6/10) *
               (1 - min 1 (max 0 ((getVoteCountValue m).getD 0) / 150)) :
             ℚ) : ℝ) +
         (5/10 : ℝ) *
           Real.sqrt
             (Real.logb 10
                (((max 0 ((getVoteCountValue m).getD 0) : ℚ) : ℝ) + 1) /
              Real.logb 10
                ((maxVotesInSet (selectPriorityCandidates witnessMovies) : ℝ) + 1)) +
         (2/10 : ℝ) * ((recencyScore 0 m : ℚ) : ℝ)⟩) ∧
    List.Sorted (fun a b => a ≥ b)
      ((applyPriorityOrdering 0 witnessMovies).map Scored.priority) :=
  applyPriorityOrdering_spec 0 witnessMovies (by decide)

/-- No tier accepts the empty movie. -/
theorem emptyMovie_fails_tier2 :
    meetsQualityThreshold emptyMovie (13/2) 25 = false := by
  simp only [meetsQualityThreshold, emptyMovie, Option.orElse_none,
    Option.getD_none]
  norm_num

/-- The empty movie yields no candidates. -/
theorem selectPriorityCandidates_emptyMovie :
    selectPriorityCandidates [emptyMovie] = [] := by
  have h1 : meetsQualityThreshold emptyMovie 7 50 = false := by decide
  have h3 : meetsQualityThreshold emptyMovie 6 10 = false := by decide
  rw [selectPriorityCandidates, if_neg (by decide), priorityThresholds_eval]
  simp [selectFromThresholds, List.filter, h1, emptyMovie_fails_tier2, h3,
    MIN_PRIORITY_RESULTS]
  decide

/-- C10: the ranking returns only input movies (each wrapped with the
added numeric priority field), every returned movie has a present finite
rating and vote count, and the ranking can strictly shrink its input (an
item without numeric rating and votes is dropped), so it filters as well
as orders. -/
theorem applyPriorityOrdering_filters (now : ℤ) (l : List Movie) :
    ((applyPriorityOrdering now l).Forall fun x =>
      x.movie ∈ l ∧ getVoteAverageValue x.movie ≠ none ∧
        getVoteCountValue x.movie ≠ none) ∧
    (applyPriorityOrdering now [emptyMovie]).length <
      ([emptyMovie] : List Movie).length := by
  constructor
  · rw [List.forall_iff_forall_mem]
    intro x hx
    by_cases hnil : l = []
    · rw [hnil] at hx
      simp [applyPriorityOrdering] at hx
    · by_cases hc : selectPriorityCandidates l = []
      · simp only [applyPriorityOrdering, if_neg hnil, if_pos hc] at hx
        cases hx
      · simp only [applyPriorityOrdering, if_neg hnil, if_neg hc] at hx
        rw [List.mem_insertionSort] at hx
        rcases List.mem_map.mp hx with ⟨m, hm, rfl⟩
        exact selectPriorityCandidates_numeric l m hm
  · simp [applyPriorityOrdering, selectPriorityCandidates_emptyMovie]

/-- C6: when the stored cursor for the signature is marked exhausted with
a known positive total page count below the resume page, a discovery call
performs zero upstream page fetches, writes nothing, and returns the
ranking of the accumulated (deduplicated existing) candidate set. -/
theorem fetchMoviesFromTmdb_exhausted_skips
    (feedFilters : List Scored → List Scored) (fetchPage : ℤ → DiscoverPage)
    (now : ℤ) (minFeedSize : ℤ) (suppressed : String → Bool)
    (existing : List Movie) (e : DiscoverEntry) (t : ℤ)
    (hex : e.exhausted = true) (ht : e.totalPages = some t) (ht0 : 0 < t)
    (hpage : t < resumePage (some e)) :
    (fetchMoviesFromTmdb feedFilters fetchPage now minFeedSize suppressed
        existing (some e)).requests = 0 ∧
    (fetchMoviesFromTmdb feedFilters fetchPage now minFeedSize suppressed
        existing (some e)).writes = [] ∧
    (fetchMoviesFromTmdb feedFilters fetchPage now minFeedSize suppressed
        existing (some e)).result =
      applyPriorityOrdering now (collectExisting existing).2 := by
  simp only [fetchMoviesFromTmdb]
  by_cases hserve : minFeedSize ≤
      ((feedFilters
        (applyPriorityOrdering now (collectExisting existing).2)).length : ℤ)
  · rw [if_pos hserve]
    exact ⟨rfl, rfl, rfl⟩
  · rw [if_neg hserve]
    rw [if_pos (by simp [hex, ht, ht0, hpage])]
    refine ⟨rfl, rfl, ?_⟩
    by_cases hempty :
        (applyPriorityOrdering now (collectExisting existing).2).isEmpty
    · simp [hempty]
    · simp [hempty]

/-- C6 witness: a concrete exhausted cursor short-circuits discovery. -/
theorem fetchMoviesFromTmdb_exhausted_skips_witness :
    (fetchMoviesFromTmdb (fun _ => []) (fun _ => ⟨[], none⟩) 0 12
        (fun _ => false) [] (some ⟨5, 10, some 3, true, 0, none⟩)).requests =
      0 ∧
    (fetchMoviesFromTmdb (fun _ => []) (fun _ => ⟨[], none⟩) 0 12
        (fun _ => false) [] (some ⟨5, 10, some 3, true, 0, none⟩)).writes =
      [] ∧
    (fetchMoviesFromTmdb (fun _ => []) (fun _ => ⟨[], none⟩) 0 12
        (fun _ => false) [] (some ⟨5, 10, some 3, true, 0, none⟩)).result =
      applyPriorityOrdering 0 (collectExisting []).2 :=
  fetchMoviesFromTmdb_exhausted_skips (fun _ => []) (fun _ => ⟨[], none⟩) 0 12
    (fun _ => false) [] ⟨5, 10, some 3, true, 0, none⟩ 3 rfl rfl (by decide)
    (by decide)

/-- Rat.floor of an integer cast is the integer. -/
theorem ratFloor_intCast (n : ℤ) : Rat.floor ((n : ℤ) : ℚ) = n := by
  have h : Rat.floor ((n : ℤ) : ℚ) = ⌊((n : ℤ) : ℚ)⌋ := rfl
  rw [h, Int.floor_intCast]

/-- The paging loop never moves its next page backwards. -/
theorem discoverLoop_page_le (feedFilters : List Scored → List Scored)
    (fetchPage : ℤ → DiscoverPage) (now : ℤ) (minFeedSize : ℤ)
    (suppressed : String → Bool) :
    ∀ (fuel : ℕ) (page allowed : ℤ) (total : Option ℚ) (seen : List String)
      (collected : List Movie) (madeReq : Bool) (requests : ℕ),
      page ≤ (discoverLoop feedFilters fetchPage now minFeedSize suppressed
        fuel page allowed total seen collected madeReq requests).nextPage := by
  intro fuel
  induction fuel with
  | zero =>
    intro page allowed total seen collected madeReq requests
    exact le_refl page
  | succ fuel ih =>
    intro page allowed total seen collected madeReq requests
    simp only [discoverLoop]
    by_cases hcond : page ≤ allowed ∧ pageLeTotal page total = true
    · rw [if_pos hcond]
      split_ifs <;>
        first
          | exact le_trans (by omega) (le_refl (page + 1))
          | exact le_trans (by omega) (ih (page + 1) _ _ _ _ _ _)
    · rw [if_neg hcond]

/-- Every cursor write the discovery call emits resumes at or after the
stored resume page. -/
theorem fetch_writes_nextPage (feedFilters : List Scored → List Scored)
    (fetchPage : ℤ → DiscoverPage) (now : ℤ) (minFeedSize : ℤ)
    (suppressed : String → Bool) (existing : List Movie)
    (h : Option DiscoverEntry) :
    ∀ w ∈ (fetchMoviesFromTmdb feedFilters fetchPage now minFeedSize
        suppressed existing h).writes,
      ∃ p : ℤ, resumePage h ≤ p ∧
        w.nextPage = some ((max 1 p : ℤ) : ℚ) := by
  intro w hw
  simp only [fetchMoviesFromTmdb] at hw
  split at hw
  · simp at hw
  · split at hw
    · simp at hw
    · split at hw
      · dsimp only at hw
        simp only [List.mem_singleton] at hw
        subst hw
        exact ⟨_, discoverLoop_page_le _ _ _ _ _ _ _ _ _ _ _ _ _, rfl⟩
      · dsimp only at hw
        split at hw
        · simp only [List.mem_singleton] at hw
          subst hw
          exact ⟨_, discoverLoop_page_le _ _ _ _ _ _ _ _ _ _ _ _ _, rfl⟩
        · simp at hw

/-- Lookup of a signature appended after a signature-free prefix. -/
theorem findDE_append_last {pre : List (String × DiscoverEntry)} {k : String}
    {e : DiscoverEntry} (h : (pre.filter fun kv => kv.1 = k) = []) :
    findDE (pre ++ [(k, e)]) k = some e := by
  unfold findDE
  rw [List.filter_append, h]
  simp

/-- Lookup after an in-place timestamp refresh of a present signature. -/
theorem findDE_map_replace {m : List (String × DiscoverEntry)} {k : String}
    {e : DiscoverEntry} (h : (m.filter fun kv => kv.1 = k) ≠ []) :
    findDE (m.map fun kv => if kv.1 = k then (k, e) else kv) k = some e := by
  induction m with
  | nil => simp at h
  | cons x rest ih =>
    by_cases hx : x.1 = k
    · simp [findDE, hx]
    · have h2 : (rest.filter fun kv => kv.1 = k) ≠ [] := by
        simpa [List.filter_cons, hx] using h
      simpa [findDE, List.filter_cons, hx] using ih h2

/-- Dropped prefixes keep a signature filter empty. -/
theorem filterDE_drop_eq_nil {m : List (String × DiscoverEntry)} {k : String}
    (h : (m.filter fun kv => kv.1 = k) = []) (n : ℕ) :
    ((m.drop n).filter fun kv => kv.1 = k) = [] := by
  rw [List.filter_eq_nil_iff] at h ⊢
  exact fun a ha => h a (List.mem_of_mem_drop ha)

/-- Eviction drops a proper prefix of a non-empty history. -/
theorem evictHist_drop : ∀ l : List (String × DiscoverEntry),
    ∃ n, evictHist l = l.drop n ∧ (l ≠ [] → n < l.length) := by
  intro l
  induction l with
  | nil => exact ⟨0, rfl, fun h => absurd rfl h⟩
  | cons x rest ih =>
    rw [evictHist]
    by_cases hlen : TMDB_DISCOVER_HISTORY_LIMIT < (x :: rest).length
    · rw [if_pos hlen]
      obtain ⟨n, hev, hlt⟩ := ih
      have hrest : rest ≠ [] := by
        intro h0
        rw [h0] at hlen
        simp [TMDB_DISCOVER_HISTORY_LIMIT] at hlen
      refine ⟨n + 1, by simpa using hev, fun _ => ?_⟩
      have := hlt hrest
      simp only [List.length_cons]
      omega
    · rw [if_neg hlen]
      exact ⟨0, rfl, fun _ => by simp⟩

/-- Lookup after appending a signature to an erased history and evicting. -/
theorem findDE_evict_append {pre : List (String × DiscoverEntry)}
    {k : String} {e : DiscoverEntry}
    (hpre : (pre.filter fun kv => kv.1 = k) = []) :
    findDE (evictHist (pre ++ [(k, e)])) k = some e := by
  obtain ⟨n, hev, hlt⟩ := evictHist_drop (pre ++ [(k, e)])
  rw [hev]
  have hn := hlt (by simp)
  rw [List.length_append, List.length_singleton] at hn
  rw [List.drop_append_of_le_length (by omega)]
  exact findDE_append_last (filterDE_drop_eq_nil hpre n)

/-- A found signature has a non-empty filter. -/
theorem findDE_some_filter_ne {m : List (String × DiscoverEntry)}
    {k : String} {e : DiscoverEntry} (h : findDE m k = some e) :
    (m.filter fun kv => kv.1 = k) ≠ [] := by
  intro h0
  unfold findDE at h
  rw [h0] at h
  cases h

/-- The erased history has an empty filter for the erased signature. -/
theorem filter_erase_eq_nil (m : List (String × DiscoverEntry)) (k : String) :
    ((m.filter fun kv => kv.1 ≠ k).filter fun kv => kv.1 = k) = [] := by
  rw [List.filter_eq_nil_iff]
  intro a ha
  have := (List.mem_filter.mp ha).2
  simpa using this

/-- Both write branches (timestamp refresh of an unchanged entry, or
erase-append-evict of a changed one) store an entry with the expected
next page. -/
theorem write_branch_lookup (hist : List (String × DiscoverEntry))
    (key : String) (upd payload : DiscoverEntry) (np : ℤ)
    (hfilter : (hist.filter fun kv => kv.1 = key) ≠ [])
    (c : Prop) [Decidable c] (hupd : c → upd.nextPage = np)
    (hpay : payload.nextPage = np) :
    ∃ e2, findDE
        (if c then hist.map fun kv => if kv.1 = key then (key, upd) else kv
         else
           evictHist ((hist.filter fun kv => kv.1 ≠ key) ++ [(key, payload)]))
        key = some e2 ∧ e2.nextPage = np := by
  by_cases hc : c
  · rw [if_pos hc]
    exact ⟨upd, findDE_map_replace hfilter, hupd hc⟩
  · rw [if_neg hc]
    exact ⟨payload, findDE_evict_append (filter_erase_eq_nil hist key), hpay⟩

/-- Writing a payload whose next page is max 1 p stores exactly that next
page for the signature. -/
theorem writeTmdbDiscoverState_nextPage
    (hist : List (String × DiscoverEntry)) (key : String) (hkey : key ≠ "")
    (raw : RawDiscoverWrite) (now2 p : ℤ)
    (hp : raw.nextPage = some ((max 1 p : ℤ) : ℚ)) :
    ∃ e2, findDE (writeTmdbDiscoverState hist key (some raw) now2) key =
        some e2 ∧ e2.nextPage = max 1 p := by
  have hposZ : (0 : ℤ) < max 1 p :=
    lt_of_lt_of_le zero_lt_one (le_max_left 1 p)
  have hcast : (0 : ℚ) < ((max 1 p : ℤ) : ℚ) := by exact_mod_cast hposZ
  have hfl : Rat.floor ((max 1 p : ℤ) : ℚ) = max 1 p := ratFloor_intCast _
  simp only [writeTmdbDiscoverState, if_neg hkey, hp, if_pos hcast, hfl,
    if_pos hposZ]
  cases hfind : findDE hist key with
  | none =>
    exact ⟨_, findDE_evict_append (filter_erase_eq_nil hist key), rfl⟩
  | some ex =>
    refine write_branch_lookup hist key _ _ (max 1 p)
      (findDE_some_filter_ne hfind) _ (fun hsame => hsame.1) rfl

/-- C5: for a fixed signature, a discovery call that read the stored
cursor state writes only cursor payloads whose stored next page is at
least the previously stored next page: across successive writes, nextPage
is monotonically non-decreasing. -/
theorem discover_nextPage_monotone
    (feedFilters : List Scored → List Scored) (fetchPage : ℤ → DiscoverPage)
    (now now2 minFeedSize : ℤ) (suppressed : String → Bool)
    (existing : List Movie) (hist : List (String × DiscoverEntry))
    (key : String) (e : DiscoverEntry) (w : RawDiscoverWrite)
    (hkey : key ≠ "") (hlook : findDE hist key = some e)
    (hw : w ∈ (fetchMoviesFromTmdb feedFilters fetchPage now minFeedSize
      suppressed existing (readTmdbDiscoverState hist key)).writes) :
    ∃ e2, findDE (writeTmdbDiscoverState hist key (some w) now2) key =
        some e2 ∧ e.nextPage ≤ e2.nextPage := by
  obtain ⟨p, hp, hwn⟩ := fetch_writes_nextPage feedFilters fetchPage now
    minFeedSize suppressed existing (readTmdbDiscoverState hist key) w hw
  obtain ⟨e2, hfe, he2⟩ :=
    writeTmdbDiscoverState_nextPage hist key hkey w now2 p hwn
  refine ⟨e2, hfe, ?_⟩
  rw [he2]
  have hread : readTmdbDiscoverState hist key = some e := by
    rw [readTmdbDiscoverState, if_neg hkey]
    exact hlook
  rw [hread] at hp
  simp only [resumePage] at hp
  have h1 : e.nextPage ≤ max 1 (if e.nextPage = 0 then 1 else e.nextPage) := by
    by_cases h0 : e.nextPage = 0
    · rw [if_pos h0, h0]
      exact le_trans zero_le_one (le_max_left 1 1)
    · rw [if_neg h0]
      exact le_max_right _ _
  exact le_trans (le_trans h1 hp) (le_max_right 1 p)

set_option maxRecDepth 8000 in
set_option maxHeartbeats 1000000 in
/-- Evaluation of the concrete witness run: one page is fetched, the
upstream is exhausted, and one cursor payload is written. -/
theorem wFetch_writes :
    (fetchMoviesFromTmdb (fun _ => []) (fun _ => ⟨[], none⟩) 0 1
      (fun _ => false) []
      (readTmdbDiscoverState [("k", wEntry)] "k")).writes =
    [⟨some 2, some 10, some 1, true⟩] := by
  have hread : readTmdbDiscoverState [("k", wEntry)] "k" = some wEntry := by
    decide
  rw [hread]
  norm_num [fetchMoviesFromTmdb, discoverLoop, resumePage, pageLeTotal,
    commitProgress, collectExisting, collectStep, applyPriorityOrdering,
    wEntry, MAX_DISCOVER_PAGES, MAX_DISCOVER_PAGES_LIMIT,
    INITIAL_DISCOVER_PAGES]

/-- C5 witness: a concrete discovery run over an exhausted upstream
advances the stored cursor from page 1 to page 2. -/
theorem discover_nextPage_monotone_witness :
    ∃ e2, findDE (writeTmdbDiscoverState [("k", wEntry)] "k"
        (some ⟨some 2, some 10, some 1, true⟩) 0) "k" = some e2 ∧
      wEntry.nextPage ≤ e2.nextPage :=
  discover_nextPage_monotone (fun _ => []) (fun _ => ⟨[], none⟩) 0 0 1
    (fun _ => false) [] [("k", wEntry)] "k" wEntry
    ⟨some 2, some 10, some 1, true⟩ (by decide) (by decide)
    (by rw [wFetch_writes]; exact List.mem_singleton.mpr rfl)
